import Mathlib

/-!
Shallow embedding of the HTML-to-record extraction layer of the
congress2dataset repository (file `src/congress2dataset/parse/bill.py`).

Python strings are modelled as `List Char`; the Python string methods used by
the source (`strip`, `lstrip`/`rstrip` with a character set, `split` on a
substring, `replace`, `count`, `startswith`, `in`) are given as executable
functions below.  Fallible Python code (exceptions) is modelled with
`Except PyErr`.
-/

deriving instance DecidableEq for Except

namespace C2D


abbrev Str := List Char
/-- Python exception kinds raised by the extraction code. -/
inductive PyErr where
  | valueError (msg : String)
  | indexError
  | keyError
  | attributeError
  | typeError
  | assertionError
  | notImplementedError
  | unreachable
  deriving Repr, DecidableEq
/-- Whitespace characters stripped by Python `str.strip()`. -/
def pyIsSpace (c : Char) : Bool :=
  c = ' ' || c = '\t' || c = '\n' || c = '\r' || c = '\x0b' || c = '\x0c'
/-- Drop trailing characters satisfying `p` (right-side strip). -/
def dropTrailing (p : Char → Bool) (s : Str) : Str :=
  (s.reverse.dropWhile p).reverse
/-- Python `str.strip()` with no argument: trim whitespace on both ends. -/
def pyStrip (s : Str) : Str :=
  dropTrailing pyIsSpace (s.dropWhile pyIsSpace)
/-- Python `str.lstrip(chars)`: drop leading characters belonging to `cs`. -/
def pyLStripChars (cs : Str) (s : Str) : Str :=
  s.dropWhile (fun c => cs.contains c)
/-- Python `str.rstrip(chars)`: drop trailing characters belonging to `cs`. -/
def pyRStripChars (cs : Str) (s : Str) : Str :=
  dropTrailing (fun c => cs.contains c) s
/-- Python `str.strip(chars)`: drop characters of `cs` from both ends. -/
def pyStripChars (cs : Str) (s : Str) : Str :=
  pyRStripChars cs (pyLStripChars cs s)
/-- Python `s.count(c)` for a single-character needle. -/
def countChar (c : Char) (s : Str) : Nat :=
  s.count c
/-- Python `s.split(c)` for a single-character separator. -/
def splitOnChar (c : Char) : Str → List Str
  | [] => [[]]
  | x :: xs =>
    if x = c then [] :: splitOnChar c xs
    else
      match splitOnChar c xs with
      | y :: ys => (x :: y) :: ys
      | [] => [[x]]
/-- Fuel-indexed worker for `splitOnL`: structural recursion on the fuel so
that concrete applications reduce in the kernel.  With fuel at least the
string length the fuel never runs out. -/
def splitOnLF (sep : Str) (f : Nat) (s : Str) : List Str :=
  match s with
  | [] => [[]]
  | c :: cs =>
    match f with
    | 0 => [c :: cs]
    | f + 1 =>
      if sep ≠ [] ∧ sep.isPrefixOf (c :: cs) then
        [] :: splitOnLF sep f ((c :: cs).drop sep.length)
      else
        match splitOnLF sep f cs with
        | y :: ys => (c :: y) :: ys
        | [] => [[c]]
/-- Python `s.split(sep)` for a non-empty separator substring (leftmost,
non-overlapping matches).  For an empty separator it returns `[s]`; the
source never splits on an empty separator. -/
def splitOnL (sep : Str) (s : Str) : List Str :=
  splitOnLF sep s.length s
/-- Python `pat in s` (substring containment). -/
def containsSub (pat : Str) : Str → Bool
  | [] => pat.isPrefixOf []
  | c :: cs => pat.isPrefixOf (c :: cs) || containsSub pat cs
/-- Fuel-indexed worker for `replaceAll`, structural on the fuel. -/
def replaceAllF (pat repl : Str) (f : Nat) (s : Str) : Str :=
  match s with
  | [] => []
  | c :: cs =>
    match f with
    | 0 => c :: cs
    | f + 1 =>
      if pat ≠ [] ∧ pat.isPrefixOf (c :: cs) then
        repl ++ replaceAllF pat repl f ((c :: cs).drop pat.length)
      else
        c :: replaceAllF pat repl f cs
/-- Python `s.replace(pat, repl)` for a non-empty pattern (leftmost,
non-overlapping).  For an empty pattern it returns `s` unchanged; the source
only replaces non-empty patterns. -/
def replaceAll (pat repl : Str) (s : Str) : Str :=
  replaceAllF pat repl s.length s
/-- Python `sep.join(parts)`. -/
def joinSep (sep : Str) : List Str → Str
  | [] => []
  | [x] => x
  | x :: y :: rest => x ++ sep ++ joinSep sep (y :: rest)
/-- Python `s.lower()` (the source only lowercases ASCII header labels). -/
def toLowerStr (s : Str) : Str :=
  s.map Char.toLower
/-- Python `s.replace(c, d)` for single characters. -/
def replaceChar (c d : Char) (s : Str) : Str :=
  s.map (fun x => if x = c then d else x)
/-- Python `s.startswith(pre)`. -/
def startsWith (pre s : Str) : Bool :=
  pre.isPrefixOf s
/-- Python `s.endswith(suf)`. -/
def endsWith (suf s : Str) : Bool :=
  suf.isSuffixOf s
/-- Python list indexing `l[n]` for a non-negative index: raises `IndexError`
when out of range. -/
def pyIndex (l : List α) (n : Nat) : Except PyErr α :=
  match l.get? n with
  | some a => .ok a
  | none => .error .indexError
/-- Python `datetime` value as produced by the `strptime` calls of the source
(times have minute granularity; date-only formats leave hour and minute 0). -/
structure DateT where
  year : Nat
  month : Nat
  day : Nat
  hour : Nat
  minute : Nat
  deriving Repr, DecidableEq
/-- Read up to `n` leading decimal digits greedily, returning them and the
rest of the string. -/
def digitsPrefix : Nat → Str → (List Char × Str)
  | 0, s => ([], s)
  | _ + 1, [] => ([], [])
  | n + 1, c :: cs =>
    if c.isDigit then
      let (d, r) := digitsPrefix n cs
      (c :: d, r)
    else
      ([], c :: cs)
/-- Numeric value of a digit string. -/
def natOfDigits (ds : List Char) : Nat :=
  ds.foldl (fun a c => a * 10 + (c.toNat - 48)) 0
/-- Read one to `maxN` leading digits as a number. -/
def takeDigits (maxN : Nat) (s : Str) : Option (Nat × Str) :=
  match digitsPrefix maxN s with
  | ([], _) => none
  | (ds, r) => some (natOfDigits ds, r)
/-- Consume an expected literal character. -/
def expectChar (c : Char) : Str → Option Str
  | [] => none
  | x :: xs => if x = c then some xs else none
def isLeap (y : Nat) : Bool :=
  y % 4 = 0 && (y % 100 ≠ 0 || y % 400 = 0)
def daysInMonth (y m : Nat) : Nat :=
  if m = 2 then (if isLeap y then 29 else 28)
  else if m = 4 || m = 6 || m = 9 || m = 11 then 30
  else 31
/-- Validity checks performed by the `datetime` constructor. -/
def validDate (y m d : Nat) : Bool :=
  1 ≤ y && y ≤ 9999 && 1 ≤ m && m ≤ 12 && 1 ≤ d && d ≤ daysInMonth y m
/-- Python `datetime.strptime(s, "%m/%d/%Y")`: month and day written with one
or two digits, a four-digit year, nothing trailing, and a calendar-valid
date. -/
def pyStrptime_mdY (s : Str) : Option DateT := do
  let (m, s) ← takeDigits 2 s
  let s ← expectChar '/' s
  let (d, s) ← takeDigits 2 s
  let s ← expectChar '/' s
  let (y, s) ← takeDigits 4 s
  if s = [] ∧ validDate y m d then some ⟨y, m, d, 0, 0⟩ else none
/-- Case-insensitive `%p` directive: `AM` gives `false`, `PM` gives `true`. -/
def parseMeridiem : Str → Option (Bool × Str)
  | a :: b :: rest =>
    if (a.toLower = 'a') ∧ (b.toLower = 'm') then some (false, rest)
    else if (a.toLower = 'p') ∧ (b.toLower = 'm') then some (true, rest)
    else none
  | _ => none
/-- Python `datetime.strptime(s, "%m/%d/%Y-%I:%M%p")`. -/
def pyStrptime_mdY_IMp (s : Str) : Option DateT := do
  let (m, s) ← takeDigits 2 s
  let s ← expectChar '/' s
  let (d, s) ← takeDigits 2 s
  let s ← expectChar '/' s
  let (y, s) ← takeDigits 4 s
  let s ← expectChar '-' s
  let (i, s) ← takeDigits 2 s
  let s ← expectChar ':' s
  let (mi, s) ← takeDigits 2 s
  let (pm, s) ← parseMeridiem s
  if s = [] ∧ validDate y m d ∧ 1 ≤ i ∧ i ≤ 12 ∧ mi ≤ 59 then
    some ⟨y, m, d, i % 12 + (if pm then 12 else 0), mi⟩
  else none
/-- Python `datetime.strptime(s, "%Y-%m-%d")`. -/
def pyStrptime_Ymd (s : Str) : Option DateT := do
  let (y, s) ← takeDigits 4 s
  let s ← expectChar '-' s
  let (m, s) ← takeDigits 2 s
  let s ← expectChar '-' s
  let (d, s) ← takeDigits 2 s
  if s = [] ∧ validDate y m d then some ⟨y, m, d, 0, 0⟩ else none
/-- Python dict assignment `d[k] = v` on an insertion-ordered association
list: an existing key keeps its position and gets the new value, a new key is
appended. -/
def dictSet (d : List (Str × α)) (k : Str) (v : α) : List (Str × α) :=
  match d with
  | [] => [(k, v)]
  | (k0, v0) :: rest =>
    if k0 = k then (k, v) :: rest else (k0, v0) :: dictSet rest k v
/-- Python dict lookup `d[k]`: `KeyError` when the key is absent. -/
def dictGet (d : List (Str × α)) (k : Str) : Except PyErr α :=
  match d with
  | [] => .error .keyError
  | (k0, v0) :: rest => if k0 = k then .ok v0 else dictGet rest k
/-- Python dict `d.pop(k)`: the removed value and the remaining dict;
`KeyError` when the key is absent. -/
def dictPop (d : List (Str × α)) (k : Str) : Except PyErr (α × List (Str × α)) :=
  match d with
  | [] => .error .keyError
  | (k0, v0) :: rest =>
    if k0 = k then .ok (v0, rest)
    else do
      let (v, rest2) ← dictPop rest k
      .ok (v, (k0, v0) :: rest2)
/-- Python `dict(zip(keys, vals))`: `zip` truncates to the shorter list and
later duplicate keys overwrite earlier ones in place. -/
def dictOfZip (keys : List Str) (vals : List α) : List (Str × α) :=
  (keys.zip vals).foldl (fun d p => dictSet d p.1 p.2) []
/-- Python tuple unpacking `a, b = l`: exactly two elements, else
`ValueError`. -/
def unpack2 : List α → Except PyErr (α × α)
  | [a, b] => .ok (a, b)
  | _ => .error (.valueError "unpacking needs exactly two values")
/-- Embedding of `parse_php_array` (bill.py lines 52-73): strips the `Array`
envelope character sets from both ends, splits the remainder on newlines and
each line on the token `=>`, strips bracket and space decoration from keys,
and enters the pairs into a dict. -/
def parse_php_array (array_str : Str) : Except PyErr (List (Str × Str)) := do
  let s := pyStrip (pyStripChars "\n)".data (pyStripChars "Array\n(\n".data array_str))
  let pairs := splitOnChar '\n' s
  pairs.foldlM (fun d pair => do
    let (key, value) ← unpack2 ((splitOnL "=>".data pair).map pyStrip)
    pure (dictSet d (pyStripChars "[] ".data key) value)) []
/-- Decoded person identity shared by the sponsor and cosponsor variants of
the identity-string decoder. -/
structure SponsorCore where
  title : Str
  party : Str
  state : Str
  district : Option Str
  last_name : Str
  full_name : Str
  deriving Repr, DecidableEq
/-- The fixed closed set of valid person titles (bill.py line 91).  The
Python code holds them in a set; at most one of them can prefix any given
string, so a list with a fixed order is an equivalent model. -/
def validTitles : List Str :=
  ["Rep.".data, "Sen.".data, "Del.".data, "Resident Commissioner".data]
/-- Title-prefix dispatch of the identity decoders (bill.py lines 91-97):
`ValueError` when no valid title prefixes the string. -/
def getTitle (s : Str) : Except PyErr Str :=
  match validTitles.filter (fun t => startsWith t s) with
  | [] => .error (.valueError "Invalid sponsor")
  | t :: _ => .ok t
/-- Hyphen-count dispatch on the bracketed position token (bill.py lines
107-115): one hyphen gives party and state, two give party, state and
district, anything else raises `ValueError`. -/
def posParse (pos : Str) : Except PyErr (Str × Str × Option Str) :=
  let n := countChar '-' pos
  if n = 1 then
    match splitOnChar '-' pos with
    | [a, b] => .ok (a, b, none)
    | _ => .error .unreachable
  else if n = 2 then
    match splitOnChar '-' pos with
    | [a, b, c] => .ok (a, b, some c)
    | _ => .error .unreachable
  else .error (.valueError "Invalid position")
/-- Sponsor-variant preprocessing (bill.py lines 99-103): remove the private
legislation marker when present, strip the matched title with `lstrip`, and
drop everything after the last occurrence of a space-parenthesis. -/
def sponsorPrep (s : Str) : Except PyErr (Str × Str) := do
  let title ← getTitle s
  let s :=
    if containsSub "(Private Legislation)".data s then
      pyStrip (replaceAll "(Private Legislation)".data [] s)
    else s
  let s := pyStrip (pyLStripChars title s)
  pure (title, joinSep " (".data ((splitOnL " (".data s).dropLast))
/-- Bracketed position token of the sponsor variant (bill.py line 105):
`[1]` raises `IndexError` when the string has no space-bracket. -/
def posOfPrepped (s : Str) : Except PyErr Str := do
  let seg ← pyIndex (splitOnL " [".data s) 1
  pure (pyStrip (pyRStripChars "]".data seg))
/-- Bracketed position token of the cosponsor variant (bill.py line 582). -/
def posOfPreppedCo (s : Str) : Except PyErr Str := do
  let seg ← pyIndex (splitOnL " [".data s) 1
  pure (pyStrip ((splitOnChar ']' seg).headD []))
/-- Composite: position token as computed inside `parse_overview_sponsor`. -/
def sponsorPos (s : Str) : Except PyErr Str := do
  let p ← sponsorPrep s
  posOfPrepped p.2
/-- Embedding of `parse_overview_sponsor` (bill.py lines 76-120). -/
def parse_overview_sponsor (s : Str) : Except PyErr SponsorCore := do
  let (title, s1) ← sponsorPrep s
  let pos ← posOfPrepped s1
  let name := (splitOnL " [".data s1).headD []
  let (party, state, district) ← posParse pos
  let parts := splitOnL ", ".data name
  let first ← pyIndex parts 1
  pure ⟨title, party, state, district, parts.headD [], first ++ ' ' :: parts.headD []⟩
/-- Cosponsor-variant preprocessing (bill.py lines 572-580): no private
legislation removal and no trailing-parenthetical drop. -/
def cosponsorPrep (s : Str) : Except PyErr (Str × Str) := do
  let title ← getTitle s
  pure (title, pyStrip (pyLStripChars title s))
/-- Composite: position token as computed inside `parse_cosponsor`. -/
def cosponsorPos (s : Str) : Except PyErr Str := do
  let p ← cosponsorPrep s
  posOfPreppedCo p.2
/-- Embedding of `parse_cosponsor` (bill.py lines 557-597). -/
def parse_cosponsor (s : Str) : Except PyErr SponsorCore := do
  let (title, s1) ← cosponsorPrep s
  let pos ← posOfPreppedCo s1
  let name := (splitOnL " [".data s1).headD []
  let (party, state, district) ← posParse pos
  let parts := splitOnL ", ".data name
  let first ← pyIndex parts 1
  pure ⟨title, party, state, district, parts.headD [], first ++ ' ' :: parts.headD []⟩
/-!
DOM model.  A saved page is modelled only as deeply as the extractors
inspect it.  Inline content of a table cell is a list of nodes; `.text`
concatenates the string content of all nodes (BeautifulSoup `get_text`, in
which a `br` element contributes nothing), `find("span")`/`find("a")`
return the first such descendant, `find_all("a")` all of them.
-/
/-- Inline node of a table cell: a text run, a line-break tag, a span with
its text content, or an anchor with href attribute and text content (`none`
for a missing href attribute, whose subscript raises `KeyError`). -/
inductive INode where
  | text (s : Str)
  | br
  | span (s : Str)
  | anchor (href : Option Str) (s : Str)
  deriving Repr, DecidableEq
abbrev Cell := List INode
/-- Text contributed by one inline node to `get_text`. -/
def inodeText : INode → Str
  | .text s => s
  | .br => []
  | .span s => s
  | .anchor _ s => s
/-- BeautifulSoup `cell.text`. -/
def cellText (c : Cell) : Str :=
  (c.map inodeText).flatten
/-- BeautifulSoup `cell.find("span")`: text of the first span, if any. -/
def firstSpan : Cell → Option Str
  | [] => none
  | .span s :: _ => some s
  | _ :: rest => firstSpan rest
/-- BeautifulSoup `cell.find_all("a")`: all anchors in order. -/
def cellAnchors : Cell → List (Option Str × Str)
  | [] => []
  | .anchor h s :: rest => (h, s) :: cellAnchors rest
  | _ :: rest => cellAnchors rest
/-- BeautifulSoup `cell.find("a")`: the first anchor, if any. -/
def firstAnchor (c : Cell) : Option (Option Str × Str) :=
  (cellAnchors c).head?
/-- A `tr` element of a table body: optional `th` cell, `td` cells, and the
`class` attribute (`none` when the attribute is absent, in which case
`row["class"]` raises `KeyError`). -/
structure Row where
  th : Option Cell := none
  tds : List Cell := []
  classes : Option (List Str) := none
  deriving Repr, DecidableEq
/-- A section table: `thead` presence, header-row presence inside it with its
`th` cells, and `tbody` presence with its `tr` elements. -/
structure Table where
  thead : Option (Option (List Cell)) := none
  tbody : Option (List Row) := none
  deriving Repr, DecidableEq
/-- A cell of the overview table.  Besides inline content it records the
`ol.bill_progress li` elements used by the tracker branch: for each `li` the
optional text of its `div.sol-step-info` child. -/
structure OCell where
  inline : Cell := []
  progress : List (Option Str) := []
  deriving Repr, DecidableEq
/-- A row of the overview table. -/
structure ORow where
  th : Option OCell := none
  tds : List OCell := []
  deriving Repr, DecidableEq
/-- Node of the escaped HTML fragment embedded in the tertiary sections
inline script (the `var msg` assignment). -/
inductive ANode where
  | str (s : Str)
  | br
  | anchor (href : Option Str) (s : Str)
  | h3
  | wrap (children : List ANode)
  | other (name : Str)
  deriving Repr
/-- An `li` under a tertiary section.  `anchorId` is `li.find("a")`:
`none` when there is no anchor (attribute access on `None` raises), and
`some none` when the anchor has no `id` attribute (subscript raises).
`fragment` is the parsed `var msg` fragment of the script of the item; `text` is
the plain text of the item (used by the policy-area branch). -/
structure TItem where
  anchorId : Option (Option Str) := none
  fragment : Option (List ANode) := none
  text : Str := []
  deriving Repr
/-- A `div.tertiary_section`: `head` is the stripped `h3` text, `none` when
the section has no `h3` (the code catches that `AttributeError` and skips
the section). -/
structure TSection where
  head : Option Str := none
  items : List TItem := []
  deriving Repr
/-- The sibling element following an `h4`/`h5` heading in the titles panel. -/
inductive Sib where
  | p (strippedStrings : List Str)
  | ul (liTexts : List Str)
  | otherTag
  deriving Repr, DecidableEq
/-- One chamber column of the titles panel: `h4` and `h5` headings paired
with their following sibling (`none` when there is no sibling, in which case
`.name` on `None` raises). -/
structure ChamberCol where
  h4s : List (Str × Option Sib) := []
  h5s : List (Str × Option Sib) := []
  deriving Repr, DecidableEq
/-- A direct child `div` of `titles_main`: first class token and the two
optional chamber columns. -/
structure ChildDiv where
  cls : Str := []
  house : Option ChamberCol := none
  senate : Option ChamberCol := none
  deriving Repr, DecidableEq
/-- The subjects panel: `li` texts of the policy-area side column and of the
main column (`none` when the respective inner `div` is absent). -/
structure SubjectsSec where
  nav : Option (List Str) := none
  main : Option (List Str) := none
  deriving Repr, DecidableEq
/-- A direct child `div` of the summaries panel: `id` attribute, `h3` text
and paragraph texts. -/
structure SumBlock where
  id : Option Str := none
  h3 : Option Str := none
  ps : List Str := []
  deriving Repr, DecidableEq
/-- A saved bill page, modelled per section.  Each field is `none` when any
element on the `find` path to the container of that section is absent. -/
structure Doc where
  overviewTable : Option (List ORow) := none
  tertiarySections : Option (List TSection) := none
  titlesDivs : Option (List ChildDiv) := none
  allActions : Option Table := none
  cosponsorsTable : Option Table := none
  committeesTable : Option Table := none
  relatedTable : Option Table := none
  subjectsSec : Option SubjectsSec := none
  summaryBlocks : Option (List SumBlock) := none
  deriving Repr
/-!
Record model.  A bill record is a document with a known key space; a field
holds `none` both when the key was never written and when the code stored
Python `None` there (the extraction claims do not distinguish the two).
-/
/-- Sponsor entry of the overview: decoded identity plus profile url and
bioguide id. -/
structure Sponsor where
  core : SponsorCore
  url : Str
  bioguide_id : Str
  deriving Repr, DecidableEq
/-- Value in a tracker step dict: a raw string or the parsed action date. -/
inductive TrackVal where
  | s (v : Str)
  | d (v : DateT)
  deriving Repr, DecidableEq
abbrev TrackStep := List (Str × TrackVal)
/-- A `(url, title)` pair (committee reports, CBO estimates). -/
structure Report where
  url : Str
  title : Str
  deriving Repr, DecidableEq
/-- A `(text, url)` link collected from anchors. -/
structure Link where
  text : Str
  url : Str
  deriving Repr, DecidableEq
/-- Parsed action (`by` is a reserved word in Lean, hence `actionBy`). -/
structure Action where
  date : DateT
  actionBy : Option Str
  action : Str
  links : List Link
  deriving Repr, DecidableEq
/-- Withdrawal sub-record of a cosponsor entry. -/
structure Withdrawn where
  date : DateT
  explanationText : Str
  explanationUrl : Str
  deriving Repr, DecidableEq
/-- Cosponsor entry. -/
structure Cosponsor where
  cosponsor : SponsorCore
  date : DateT
  withdrawn : Option Withdrawn
  deriving Repr, DecidableEq
/-- Committee activity record. -/
structure Committee where
  name : Str
  date : Option DateT
  activity : Str
  related_documents : List Link
  is_subcommittee : Bool
  deriving Repr, DecidableEq
/-- Related-bill record (`by` is reserved in Lean, hence `identifiedBy`). -/
structure Related where
  url : Str
  relationship : Str
  identifiedBy : Str
  deriving Repr, DecidableEq
/-- Title entry. -/
structure TitleEntry where
  scope : Str
  type : Str
  chamber : Str
  title : Str
  label : Str
  deriving Repr, DecidableEq
/-- Summary entry. -/
structure Summary where
  title : Str
  text : Str
  deriving Repr, DecidableEq
/-- The bill record. -/
structure Bill where
  congress : Nat
  type : Str
  number : Nat
  source : Str
  sponsor : Option Sponsor := none
  tracker : Option (List TrackStep) := none
  reports : Option (List Report) := none
  constitutional_authority_statement : Option Str := none
  cbo_estimates : Option (List Report) := none
  policy_area : Option Str := none
  titles : Option (List TitleEntry) := none
  actions : Option (List Action) := none
  cosponsors : Option (List Cosponsor) := none
  committees : Option (List Committee) := none
  related : Option (List Related) := none
  subjects : Option (List Str) := none
  summaries : Option (List Summary) := none
  deriving Repr, DecidableEq
/-!
Section extractors.  Each takes the bill record and the document and either
returns the updated record or the Python exception the source would raise.
-/
/-- Header label normalization `col.text.strip().lower()` used by the four
table extractors. -/
def headerNames (cols : List Cell) : List Str :=
  cols.map (fun c => toLowerStr (pyStrip (cellText c)))
/-- Python `set(a) == set(b)`: mutual containment. -/
def setEqS (a b : List Str) : Bool :=
  a.all (fun x => b.contains x) && b.all (fun x => a.contains x)
/-- The fixed base-url prefix convention: an href that does not start with
`http` is resolved against the site root (bill.py lines 495-497, 776-778). -/
def resolveUrl (href : Str) : Str :=
  if startsWith "http".data href then href
  else "https://www.congress.gov".data ++ href
/-- Links of a cell: `(text.strip(), resolved url)` per anchor; `KeyError`
for an anchor without an href attribute. -/
def linksOfCell (c : Cell) : Except PyErr (List Link) :=
  (cellAnchors c).mapM (fun a => do
    let href ← match a.1 with
      | some h => pure h
      | none => Except.error PyErr.keyError
    pure (⟨pyStrip a.2, resolveUrl href⟩ : Link))
/-- `tbody.find_all("tr")`: `AttributeError` when the table has no body. -/
def tableRows (t : Table) : Except PyErr (List Row) :=
  match t.tbody with
  | some rows => .ok rows
  | none => .error .attributeError
/-- `_parse_date_time` of `parse_actions` (bill.py lines 465-475): timestamp
pattern first, then date-only, else the `ValueError` escapes. -/
def parseDateTimeE (s : Str) : Except PyErr DateT :=
  match pyStrptime_mdY_IMp s with
  | some d => .ok d
  | none =>
    match pyStrptime_mdY s with
    | some d => .ok d
    | none => .error (.valueError "time data does not match format")
/-- `_parse_date_time` of `parse_committees` (bill.py lines 745-758): same
two patterns but a double failure gives `None` instead of an error. -/
def parseDateTimeOpt (s : Str) : Option DateT :=
  match pyStrptime_mdY_IMp s with
  | some d => some d
  | none => pyStrptime_mdY s
/-- `datetime.strptime` where failure raises. -/
def strptimeE (f : Str → Option DateT) (s : Str) : Except PyErr DateT :=
  match f s with
  | some d => .ok d
  | none => .error (.valueError "time data does not match format")
/-- Column renaming of the three-column actions shape. -/
def actKeyUpd3 : List (Str × Str) :=
  [("date".data, "date".data), ("chamber".data, "by".data),
   ("all actions".data, "action".data)]
/-- Column renaming of the two-column actions shape. -/
def actKeyUpd2 : List (Str × Str) :=
  [("date".data, "date".data), ("all actions".data, "action".data)]
/-- One row of the `{date, chamber, all actions}` actions shape (bill.py
lines 486-502). -/
def actionsRow3 (keys : List Str) (row : Row) : Except PyErr Action := do
  let d := dictOfZip keys row.tds
  let dateCell ← dictGet d "date".data
  let date ← parseDateTimeE (pyStrip (cellText dateCell))
  let byCell ← dictGet d "by".data
  let actionCell ← dictGet d "action".data
  let links ← linksOfCell actionCell
  pure ⟨date, some (pyStrip (cellText byCell)), pyStrip (cellText actionCell), links⟩
/-- One row of the `{date, all actions}` actions shape (bill.py lines
516-546): the acting party may appear as an inline span marker inside the
action cell, which must start with `Action By:` when non-empty; the marker
text is removed from the action text and the prefix-less remainder becomes
the `by` value. -/
def actionsRow2 (keys : List Str) (row : Row) : Except PyErr Action := do
  let d := dictOfZip keys row.tds
  let actionCell ← dictGet d "action".data
  let spanTxt := firstSpan actionCell
  let atext0 := pyStrip (cellText actionCell)
  let byAndText ←
    match spanTxt with
    | none => Except.ok ((none : Option Str), atext0)
    | some sp =>
      let sp := pyStrip sp
      if sp = [] then Except.ok (none, atext0)
      else if startsWith "Action By:".data sp then
        Except.ok (some (pyStrip (replaceAll "Action By:".data [] sp)),
          pyStrip (replaceAll sp [] atext0))
      else Except.error (PyErr.valueError "Invalid by column")
  let dateCell ← dictGet d "date".data
  let date ← parseDateTimeE (pyStrip (cellText dateCell))
  let links ← linksOfCell actionCell
  pure ⟨date, byAndText.1, byAndText.2, links⟩
/-- Embedding of `parse_actions` (bill.py lines 434-554). -/
def parse_actions (bill : Bill) (doc : Doc) : Except PyErr Bill := do
  match doc.allActions with
  | none => .ok { bill with actions := some [] }
  | some tbl => do
    let headerOpt ← match tbl.thead with
      | none => Except.error PyErr.attributeError
      | some h => Except.ok h
    match headerOpt with
    | none => .ok { bill with actions := some [] }
    | some cols => do
      let col_names := headerNames cols
      let acts ←
        if setEqS col_names ["date".data, "chamber".data, "all actions".data] then do
          let keys ← col_names.mapM (dictGet actKeyUpd3)
          let rows ← tableRows tbl
          rows.mapM (actionsRow3 keys)
        else if setEqS col_names ["date".data, "all actions".data] then do
          let keys ← col_names.mapM (dictGet actKeyUpd2)
          let rows ← tableRows tbl
          rows.mapM (actionsRow2 keys)
        else Except.error (PyErr.valueError "Invalid columns")
      .ok { bill with actions := some acts }
/-- Column renaming of the simple cosponsors shape. -/
def cosKeyUpdSimple : List (Str × Str) :=
  [("cosponsor".data, "cosponsor".data), ("date cosponsored".data, "date".data)]
/-- Column renaming of the four-column withdrawal cosponsors shape. -/
def cosKeyUpdWithdraw : List (Str × Str) :=
  [("cosponsors who withdrew".data, "cosponsor".data),
   ("date cosponsored".data, "date".data),
   ("date withdrawn".data, "date withdrawn".data),
   ("cr explanation".data, "cr explanation".data)]
/-- One row of the simple cosponsors shape (bill.py lines 644-651). -/
def cosponsorRowSimple (keys : List Str) (row : Row) : Except PyErr Cosponsor := do
  let d := dictOfZip keys row.tds
  let c ← dictGet d "cosponsor".data
  let sp ← parse_cosponsor (pyStrip (cellText c))
  let dc ← dictGet d "date".data
  let date ← strptimeE pyStrptime_mdY (pyStrip (cellText dc))
  pure ⟨sp, date, none⟩
/-- One row of the withdrawal cosponsors shape (bill.py lines 665-680): the
full record is built, including the withdrawal sub-record. -/
def cosponsorRowWithdraw (keys : List Str) (row : Row) : Except PyErr Cosponsor := do
  let d := dictOfZip keys row.tds
  let c ← dictGet d "cosponsor".data
  let sp ← parse_cosponsor (pyStrip (cellText c))
  let dc ← dictGet d "date".data
  let date ← strptimeE pyStrptime_mdY (pyStrip (cellText dc))
  let wd ← dictGet d "date withdrawn".data
  let wdate ← strptimeE pyStrptime_mdY (pyStrip (cellText wd))
  let ce ← dictGet d "cr explanation".data
  let a ← match firstAnchor ce with
    | some a => Except.ok a
    | none => Except.error PyErr.typeError
  let href ← match a.1 with
    | some h => Except.ok h
    | none => Except.error PyErr.keyError
  pure ⟨sp, date, some ⟨wdate, pyStrip (cellText ce), href⟩⟩
/-- Embedding of `parse_consponsors` (bill.py lines 600-686).  In the
withdrawal branch the source evaluates the bare expression `consponsors`
instead of calling `consponsors.append(y)` (bill.py line 680), so each row
record `y` is built (its exceptions still escape) but discarded, and the
stored list stays empty. -/
def parse_consponsors (bill : Bill) (doc : Doc) : Except PyErr Bill := do
  match doc.cosponsorsTable with
  | none => .ok { bill with cosponsors := some [] }
  | some tbl =>
    match tbl.thead with
    | none => .ok { bill with cosponsors := some [] }
    | some none => .ok { bill with cosponsors := some [] }
    | some (some cols) => do
      let col_names := headerNames cols
      if setEqS col_names ["cosponsor".data, "date cosponsored".data] then do
        let keys ← col_names.mapM (dictGet cosKeyUpdSimple)
        let rows ← tableRows tbl
        let cs ← rows.mapM (cosponsorRowSimple keys)
        .ok { bill with cosponsors := some cs }
      else if setEqS col_names ["cosponsors who withdrew".data,
          "date cosponsored".data, "date withdrawn".data,
          "cr explanation".data] then do
        let keys ← col_names.mapM (dictGet cosKeyUpdWithdraw)
        let rows ← tableRows tbl
        let _ ← rows.mapM (cosponsorRowWithdraw keys)
        .ok { bill with cosponsors := some [] }
      else Except.error (PyErr.valueError "Invalid columns")
/-- Column renaming of the committees shape. -/
def commKeyUpd : List (Str × Str) :=
  [("committee / subcommittee".data, "name".data), ("date".data, "date".data),
   ("activity".data, "activity".data),
   ("related documents".data, "related documents".data)]
/-- Carry-forward update of the committees loop (bill.py lines 763-766): a
row with its own header cell replaces the current committee cell and
subcommittee flag (`row["class"]` raising `KeyError` when the class
attribute is absent); a row without one leaves the state unchanged. -/
def stepCommState (st : Option Cell × Bool) (row : Row) :
    Except PyErr (Option Cell × Bool) :=
  match row.th with
  | some th =>
    match row.classes with
    | none => .error .keyError
    | some cls => .ok (some th, cls.contains "subcommittee".data)
  | none => .ok st
/-- One committees row record (bill.py lines 768-784), built from the
carried state and the row cells: `dict(zip(keys, [cur_th] + tds))` followed
by field extraction (`AttributeError` when the name cell is still `None`). -/
def mkCommitteeEntry (keys : List Str) (st : Option Cell × Bool) (row : Row) :
    Except PyErr Committee := do
  let d := dictOfZip keys (st.1 :: row.tds.map some)
  let nameC ← dictGet d "name".data
  let nameCell ← match nameC with
    | some c => Except.ok c
    | none => Except.error PyErr.attributeError
  let dateC ← dictGet d "date".data
  let dateCell ← match dateC with
    | some c => Except.ok c
    | none => Except.error PyErr.attributeError
  let actC ← dictGet d "activity".data
  let actCell ← match actC with
    | some c => Except.ok c
    | none => Except.error PyErr.attributeError
  let relC ← dictGet d "related documents".data
  let relCell ← match relC with
    | some c => Except.ok c
    | none => Except.error PyErr.attributeError
  let links ← linksOfCell relCell
  pure ⟨pyStrip (cellText nameCell), parseDateTimeOpt (pyStrip (cellText dateCell)),
    pyStrip (cellText actCell), links, st.2⟩
/-- The committees row loop with its threaded accumulator state. -/
def commRows (keys : List Str) :
    (Option Cell × Bool) → List Row → Except PyErr (List Committee)
  | _, [] => .ok []
  | st, r :: rs => do
    let st2 ← stepCommState st r
    let y ← mkCommitteeEntry keys st2 r
    let ys ← commRows keys st2 rs
    .ok (y :: ys)
/-- Embedding of `parse_committees` (bill.py lines 689-790). -/
def parse_committees (bill : Bill) (doc : Doc) : Except PyErr Bill := do
  match doc.committeesTable with
  | none => .ok { bill with committees := some [] }
  | some tbl =>
    match tbl.thead with
    | none => .ok { bill with committees := some [] }
    | some none => .ok { bill with committees := some [] }
    | some (some cols) => do
      let col_names := headerNames cols
      if setEqS col_names ["committee / subcommittee".data, "date".data,
          "activity".data, "related documents".data] then do
        let keys ← col_names.mapM (dictGet commKeyUpd)
        let rows ← tableRows tbl
        let cs ← commRows keys (none, false) rows
        .ok { bill with committees := some cs }
      else Except.error (PyErr.valueError "Invalid columns")
/-- Column renaming of the related-bills shape. -/
def relKeyUpd : List (Str × Str) :=
  [("bill".data, "bill".data), ("latest title".data, "title".data),
   ("relationships to".data, "relationship".data),
   ("relationships identified by".data, "by".data),
   ("latest action".data, "latest action".data)]
/-- One related-bills row record (bill.py lines 846-865): the other-bill url
uses substring containment `"http" in href` (not a prefix test) to decide
whether to prepend the site root, and a relationship label starting with
`Procedurally related` is collapsed to that canonical string. -/
def relatedRow (keys : List Str) (row : Row) : Except PyErr Related := do
  let d := dictOfZip keys row.tds
  let billC ← dictGet d "bill".data
  let a ← match firstAnchor billC with
    | some a => Except.ok a
    | none => Except.error PyErr.typeError
  let href ← match a.1 with
    | some h => Except.ok h
    | none => Except.error PyErr.keyError
  let url := if containsSub "http".data href then href
    else "https://www.congress.gov".data ++ href
  let relC ← dictGet d "relationship".data
  let rel := if startsWith "Procedurally related".data (pyStrip (cellText relC)) then
      "Procedurally related".data
    else pyStrip (cellText relC)
  let byC ← dictGet d "by".data
  pure ⟨url, rel, pyStrip (cellText byC)⟩
/-- Embedding of `parse_related` (bill.py lines 793-871): rows carrying the
`relatedbill_exrow` marker class are skipped, and a header label starting
with `relationships to` is normalized to that canonical name. -/
def parse_related (bill : Bill) (doc : Doc) : Except PyErr Bill := do
  match doc.relatedTable with
  | none => .ok { bill with related := some [] }
  | some tbl =>
    match tbl.thead with
    | none => .ok { bill with related := some [] }
    | some none => .ok { bill with related := some [] }
    | some (some cols) => do
      let col_names := (headerNames cols).map (fun c =>
        if startsWith "relationships to".data c then "relationships to".data else c)
      if setEqS col_names ["bill".data, "latest title".data,
          "relationships to".data, "relationships identified by".data,
          "latest action".data] then do
        let keys ← col_names.mapM (dictGet relKeyUpd)
        let rows ← tableRows tbl
        let kept := rows.filter (fun r =>
          ¬ (r.classes.getD []).contains "relatedbill_exrow".data)
        let rs ← kept.mapM (relatedRow keys)
        .ok { bill with related := some rs }
      else Except.error (PyErr.valueError "Invalid columns")
/-- Embedding of `parse_subjects` (bill.py lines 874-915): validates the
policy-area side column (zero entries pass, one entry must equal the policy
area already on the record, more is an error), collects the main-column
subject texts, and backfills the policy area with `Private Legislation` when
it was unset and that subject is present. -/
def parse_subjects (bill : Bill) (doc : Doc) : Except PyErr Bill := do
  match doc.subjectsSec with
  | none => .ok { bill with subjects := some [] }
  | some sec => do
    let lis ← match sec.nav with
      | none => Except.error PyErr.attributeError
      | some l => Except.ok l
    if lis.length = 0 then
      pure ()
    else if lis.length = 1 then
      if (match bill.policy_area with
          | some p => p == pyStrip (lis.headD [])
          | none => false) then
        pure ()
      else Except.error PyErr.assertionError
    else Except.error (PyErr.valueError "Invalid number of policy areas")
    match sec.main with
    | none => .ok { bill with subjects := some [] }
    | some mainLis =>
      let subjects := mainLis.map pyStrip
      let bill2 := { bill with subjects := some subjects }
      if subjects ≠ [] ∧ bill.policy_area = none ∧
          subjects.contains "Private Legislation".data then
        .ok { bill2 with policy_area := some "Private Legislation".data }
      else
        .ok bill2
/-- Embedding of `parse_summaries` (bill.py lines 918-943): each child `div`
whose id starts with `summary-` yields a title (h3 text with the
`Shown Here:` marker removed and the part before the first parenthesis) and
a body joining the paragraph texts with newlines. -/
def parse_summaries (bill : Bill) (doc : Doc) : Except PyErr Bill := do
  match doc.summaryBlocks with
  | none => .ok { bill with summaries := some [] }
  | some blocks => do
    let sums ← blocks.foldlM (fun acc b => do
      let idv ← match b.id with
        | none => Except.error PyErr.attributeError
        | some i => Except.ok i
      if startsWith "summary-".data idv then do
        let h ← match b.h3 with
          | none => Except.error PyErr.attributeError
          | some h => Except.ok h
        let title := pyStrip ((splitOnChar '('
          (pyStrip (replaceAll "Shown Here:".data [] (pyStrip h)))).headD [])
        pure (acc ++ [(⟨title, joinSep "\n".data b.ps⟩ : Summary)])
      else
        pure acc) []
    .ok { bill with summaries := some sums }
/-- Heading label `h.split("as")[-1].split("for")[0].strip()` of the titles
extractor. -/
def titleLabel (h : Str) : Str :=
  pyStrip ((splitOnL "for".data ((splitOnL "as".data h).getLastD [])).headD [])
/-- Keep the first occurrence of each string.  The source collects the
stripped text runs into a Python set before emitting them; the set order is
unspecified, so a canonical first-occurrence order stands in for it. -/
def dedupFirst (l : List Str) : List Str :=
  l.foldl (fun acc x => if acc.contains x then acc else acc ++ [x]) []
/-- Title type: `official` when the heading text contains `Official`. -/
def titleType (h : Str) : Str :=
  if containsSub "Official".data h then "official".data else "short".data
/-- Titles contributed by one chamber column (bill.py lines 378-427): `h4`
headings followed by a paragraph give full-scope titles (deduplicated text
runs), `h5` headings followed by a list give partial-scope titles; a heading
with no following sibling raises, any other sibling is skipped. -/
def chamberTitles (acc : List TitleEntry) (chamber : Str) (col : Option ChamberCol) :
    Except PyErr (List TitleEntry) :=
  match col with
  | none => .ok acc
  | some cc => do
    let acc ← cc.h4s.foldlM (fun acc p => do
      match p.2 with
      | none => Except.error PyErr.attributeError
      | some (.p txts) =>
        pure (acc ++ (dedupFirst txts).map (fun t =>
          (⟨"full".data, titleType p.1, chamber, t, titleLabel p.1⟩ : TitleEntry)))
      | some _ => pure acc) acc
    cc.h5s.foldlM (fun acc p => do
      match p.2 with
      | none => Except.error PyErr.attributeError
      | some (.ul lis) =>
        pure (acc ++ lis.map (fun t =>
          (⟨"partial".data, titleType p.1, chamber, t, titleLabel p.1⟩ : TitleEntry)))
      | some _ => pure acc) acc
/-- Embedding of `parse_titles` (bill.py lines 342-431): the container must
hold exactly one child block, or exactly three whose classes are positionally
validated (then only the last two are scanned); each block contributes house
then senate column titles. -/
def parse_titles (bill : Bill) (doc : Doc) : Except PyErr Bill := do
  match doc.titlesDivs with
  | none => Except.error PyErr.attributeError
  | some divs => do
    let all_titles ←
      if divs.length = 3 then
        if divs.map ChildDiv.cls =
            ["shortTitles".data, "titles-row".data, "officialTitles".data] then
          Except.ok (divs.drop 1)
        else Except.error PyErr.assertionError
      else if divs.length = 1 then Except.ok divs
      else Except.error (PyErr.valueError "Invalid number of child divs")
    let titles ← all_titles.foldlM (fun acc d => do
      let acc ← chamberTitles acc "house".data d.house
      chamberTitles acc "senate".data d.senate) []
    .ok { bill with titles := some titles }
/-- Rendering of the embedded authority-statement fragment (bill.py lines
231-247): text nodes pass through, `br` becomes a newline, anchors
contribute their text, an `h3` stops rendering, the two wrapper tags
recurse, anything else is an error. -/
def renderFrag : List ANode → Except PyErr Str
  | [] => .ok []
  | n :: rest =>
    match n with
    | .str s => do
      let r ← renderFrag rest
      .ok (s ++ r)
    | .br => do
      let r ← renderFrag rest
      .ok ('\n' :: r)
    | .anchor _ s => do
      let r ← renderFrag rest
      .ok (s ++ r)
    | .h3 => .ok []
    | .wrap cs => do
      let i ← renderFrag cs
      let r ← renderFrag rest
      .ok (i ++ r)
    | .other _ => .error (.valueError "Invalid tag")
/-- Embedding of `parse_authority_statement` (bill.py lines 210-261).  The
inline-script marker extraction and the re-parse of the escaped fragment by
BeautifulSoup are modelled by storing the already-parsed fragment on the
item; a missing script gives the `AttributeError` of `.string` on `None`.
The rendered text is trimmed and lines that are blank, start with a bracket
or end with one are dropped. -/
def parse_authority_statement (item : TItem) : Except PyErr Str := do
  let frag ← match item.fragment with
    | none => Except.error PyErr.attributeError
    | some f => Except.ok f
  let out ← renderFrag frag
  let out := pyStrip out
  .ok (joinSep "\n".data ((splitOnChar '\n' out).filter (fun l =>
    ¬ startsWith "[".data l ∧ ¬ endsWith "]".data l ∧ l ≠ [])))
/-- Anchors of a fragment in document order (`find_all("a")`). -/
def fragAnchors : List ANode → List (Option Str × Str)
  | [] => []
  | .anchor h s :: rest => (h, s) :: fragAnchors rest
  | .wrap cs :: rest => fragAnchors cs ++ fragAnchors rest
  | _ :: rest => fragAnchors rest
/-- Embedding of `parse_cbo_estimates` (bill.py lines 264-291): every anchor
of the fragment except the generic search-page link becomes a `(url, title)`
record. -/
def parse_cbo_estimates (item : TItem) : Except PyErr (List Report) := do
  let frag ← match item.fragment with
    | none => Except.error PyErr.attributeError
    | some f => Except.ok f
  (fragAnchors frag).foldlM (fun acc a =>
    if containsSub "Cost Estimates Search page".data a.2 then pure acc
    else do
      let href ← match a.1 with
        | some h => Except.ok h
        | none => Except.error PyErr.keyError
      pure (acc ++ [(⟨href, a.2⟩ : Report)])) []
/-- The three bill fields written by the tertiary extractor. -/
structure TertOut where
  cas : Option Str := none
  cbo : Option (List Report) := none
  pa : Option Str := none
  deriving Repr
/-- Store the tertiary fields on the record (the source writes these three
`bill` keys directly, initializing all of them to `None` first). -/
def applyTertiary (bill : Bill) (t : TertOut) : Bill :=
  { bill with
    constitutional_authority_statement := t.cas,
    cbo_estimates := t.cbo,
    policy_area := t.pa }
/-- Embedding of `parse_tertiary` (bill.py lines 294-339): resets the three
tertiary fields, then walks the `tertiary_section` blocks; sections without
an `h3` are skipped, the `More on This Bill` items dispatch on anchor id
(a third id is skipped and an unknown one is an error), and the policy-area
section stores the stripped text of its first list item. -/
def parse_tertiary (bill : Bill) (doc : Doc) : Except PyErr Bill := do
  match doc.tertiarySections with
  | none => Except.error PyErr.attributeError
  | some secs => do
    let t ← secs.foldlM (fun t sec =>
      match sec.head with
      | none => .ok t
      | some rawHead =>
        let head := pyStrip rawHead
        if head = "More on This Bill".data then
          sec.items.foldlM (fun t li => do
            let aid ← match li.anchorId with
              | none => Except.error PyErr.attributeError
              | some a => Except.ok a
            let idv ← match aid with
              | none => Except.error PyErr.keyError
              | some i => Except.ok i
            if idv = "constAuthButton".data then do
              let s ← parse_authority_statement li
              pure { t with cas := some s }
            else if idv = "cboEstimateButton".data then do
              let r ← parse_cbo_estimates li
              pure { t with cbo := some r }
            else if idv = "supportingMembersBtn".data then
              pure t
            else Except.error PyErr.notImplementedError) t
        else if head = "Subject — Policy Area:".data then do
          let li0 ← pyIndex sec.items 0
          pure { t with pa := some (pyStrip li0.text) }
        else .ok t) (TertOut.mk none none none)
    .ok (applyTertiary bill t)
/-- Overview row key normalization
`k.text.strip().rstrip(":").lower().replace(" ", "_")`. -/
def overviewKey (k : OCell) : Str :=
  replaceChar ' ' '_' (toLowerStr (pyRStripChars ":".data (pyStrip (cellText k.inline))))
/-- The fixed ignore-list of overview keys (bill.py lines 162-171). -/
def ignoreKeys : List Str :=
  ["committees".data, "latest_action".data, "latest_action_(modified)".data,
   "roll_call_votes".data, "committee_meetings".data, "committee_prints".data,
   "notes".data]
/-- Partial overview output (the `out` dict): only these three keys are ever
written. -/
structure OvOut where
  sponsor : Option Sponsor := none
  tracker : Option (List TrackStep) := none
  reports : Option (List Report) := none
  deriving Repr, DecidableEq
/-- One tracker step (bill.py lines 179-196): the step-info text is decoded
with `parse_php_array`, its `actionDate` value is parsed with the
`%Y-%m-%d` pattern, and five keys are renamed via pop-and-set. -/
def trackStepOf (txt : Str) : Except PyErr TrackStep := do
  let d0 ← parse_php_array txt
  let raw ← dictGet d0 "actionDate".data
  let date ← strptimeE pyStrptime_Ymd raw
  let d : TrackStep := d0.map (fun p => (p.1, TrackVal.s p.2))
  let d := dictSet d "actionDate".data (TrackVal.d date)
  let (v1, d) ← dictPop d "actionDate".data
  let d := dictSet d "date".data v1
  let (v2, d) ← dictPop d "description".data
  let d := dictSet d "type".data v2
  let (v3, d) ← dictPop d "displayText".data
  let d := dictSet d "text".data v3
  let (v4, d) ← dictPop d "externalActionCode".data
  let d := dictSet d "code".data v4
  let (v5, d) ← dictPop d "chamberOfAction".data
  pure (dictSet d "chamber".data v5)
/-- The tracker branch (bill.py lines 172-197): list items without a
step-info `div` are skipped. -/
def trackerOf (v : OCell) : Except PyErr (List TrackStep) :=
  v.progress.foldlM (fun acc o =>
    match o with
    | none => pure acc
    | some txt => do
      let st ← trackStepOf txt
      pure (acc ++ [st])) []
/-- The sponsor branch (bill.py lines 158-161): decode the identity string,
then attach the resolved profile url and the bioguide id taken from the
final path segment of the href. -/
def sponsorOf (v : OCell) : Except PyErr Sponsor := do
  let core ← parse_overview_sponsor (cellText v.inline)
  let a ← match firstAnchor v.inline with
    | some a => Except.ok a
    | none => Except.error PyErr.typeError
  let href ← match a.1 with
    | some h => Except.ok h
    | none => Except.error PyErr.keyError
  pure ⟨core, "https://www.congress.gov".data ++ href, (splitOnChar '/' href).getLastD []⟩
/-- The committee-reports branch (bill.py lines 198-202). -/
def reportsOf (v : OCell) : Except PyErr (List Report) :=
  (cellAnchors v.inline).mapM (fun a => do
    let href ← match a.1 with
      | some h => Except.ok h
      | none => Except.error PyErr.keyError
    pure (⟨"https://www.congress.gov".data ++ href, a.2⟩ : Report))
/-- Merge of `bill.update(out)`: keys present in `out` overwrite, the rest
of the record is untouched. -/
def applyOverview (bill : Bill) (out : OvOut) : Bill :=
  { bill with
    sponsor := match out.sponsor with
      | some s => some s
      | none => bill.sponsor,
    tracker := match out.tracker with
      | some t => some t
      | none => bill.tracker,
    reports := match out.reports with
      | some r => some r
      | none => bill.reports }
/-- Embedding of `parse_overview` (bill.py lines 123-207): each row is a
header/data or data/data pair (anything else errors), the normalized key
dispatches to the sponsor, ignore, tracker or committee-reports branch, and
any unknown key raises `NotImplementedError`. -/
def parse_overview (bill : Bill) (doc : Doc) : Except PyErr Bill := do
  match doc.overviewTable with
  | none => Except.error PyErr.attributeError
  | some rows => do
    let out ← rows.foldlM (fun out row => do
      let kv ← match row.th, row.tds with
        | none, [k, v] => Except.ok (k, v)
        | some th, [v] => Except.ok (th, v)
        | _, _ => Except.error (PyErr.valueError "Invalid row")
      let key := overviewKey kv.1
      if key = "sponsor".data then do
        let sp ← sponsorOf kv.2
        pure { out with sponsor := some sp }
      else if ignoreKeys.contains key then
        pure out
      else if startsWith "tracker".data key then do
        let steps ← trackerOf kv.2
        pure { out with tracker := some steps }
      else if key = "committee_reports".data then do
        let rs ← reportsOf kv.2
        pure { out with reports := some rs }
      else Except.error PyErr.notImplementedError) (OvOut.mk none none none)
    .ok (applyOverview bill out)
/-!
Concrete fixtures used by the claim theorems.
-/
/-- A cell holding a single text run. -/
def textCell (s : String) : Cell :=
  [INode.text s.data]
/-- A freshly initialized bill record. -/
def bill0 : Bill :=
  { congress := 117, type := "house-bill".data, number := 1, source := "source".data }
/-- A document in which every section container is absent. -/
def emptyDoc : Doc := {}
/-- The four-column withdrawal cosponsors header. -/
def withdrawHeader : List Cell :=
  [textCell "Cosponsors who withdrew", textCell "Date cosponsored",
   textCell "Date withdrawn", textCell "CR Explanation"]
/-- A well-formed withdrawal cosponsors row. -/
def withdrawRow : Row :=
  { tds := [textCell "Rep. Doe, Jane [D-CA-12]", textCell "01/02/2021",
      textCell "03/04/2021",
      [INode.anchor (some "https://x.gov/cr".data) "CR E55".data]] }
/-- A page whose cosponsors table matches the withdrawal schema with one
valid row. -/
def withdrawDoc : Doc :=
  { cosponsorsTable :=
      some { thead := some (some withdrawHeader), tbody := some [withdrawRow] } }
/-- The three-column actions header. -/
def actHeader3 : List Cell :=
  [textCell "Date", textCell "Chamber", textCell "All Actions"]
/-- The committees header. -/
def commHeader : List Cell :=
  [textCell "Committee / Subcommittee", textCell "Date", textCell "Activity",
   textCell "Related Documents"]
/-- The related-bills header. -/
def relHeader : List Cell :=
  [textCell "Bill", textCell "Latest Title", textCell "Relationships to HR1",
   textCell "Relationships Identified by", textCell "Latest Action"]
/-- An actions page whose single row carries one anchor with the given
href. -/
def actionsLinkDoc (href : Str) : Doc :=
  { allActions := some (Table.mk (some (some actHeader3))
      (some [Row.mk none
        [textCell "01/02/2021", textCell "House",
         [INode.anchor (some href) "Roll 7".data]] none])) }
/-- A committees page whose single row carries one related-document anchor
with the given href. -/
def committeesLinkDoc (href : Str) : Doc :=
  { committeesTable := some (Table.mk (some (some commHeader))
      (some [Row.mk (some (textCell "Judiciary"))
        [textCell "01/02/2021", textCell "Referred",
         [INode.anchor (some href) "H. Rept. 1".data]] (some [])])) }
/-- A related-bills page whose single row links the other bill with the
given href. -/
def relatedLinkDoc (href : Str) : Doc :=
  { relatedTable := some (Table.mk (some (some relHeader))
      (some [Row.mk none
        [[INode.anchor (some href) "H.R.2".data], textCell "T", textCell "Rel",
         textCell "CRS", textCell "LA"] none])) }
/-- A subjects page with an empty side panel and a subject list containing
the private-legislation subject. -/
def subjBackfillDoc : Doc :=
  { subjectsSec := some ⟨some [],
      some ["Private Legislation".data, "Agriculture".data]⟩ }
/-- A subjects page whose side panel disagrees with the recorded policy
area. -/
def subjMismatchDoc : Doc :=
  { subjectsSec := some ⟨some [" Agriculture ".data], some []⟩ }
/-- A subjects page with two side-panel entries. -/
def subjTwoNavDoc : Doc :=
  { subjectsSec := some ⟨some ["A".data, "B".data], none⟩ }
/-- The record produced by the backfill example. -/
def subjOut : Bill :=
  { bill0 with subjects := some ["Private Legislation".data, "Agriculture".data],
               policy_area := some "Private Legislation".data }
/-- A page on which all nine extractors succeed: empty overview table,
empty tertiary panel, a single child block in the titles panel, every
other container absent. -/
def doc10 : Doc :=
  { overviewTable := some [],
    tertiarySections := some [],
    titlesDivs := some [ChildDiv.mk "solo".data none none] }

/-- The generic marker row. -/
def markerRow (dstr core m : Str) : Row :=
  { tds := [[INode.text dstr],
      [INode.text (core ++ ['\n']), INode.br, INode.span m]] }

/-- A two-column actions page with the given body rows. -/
def twoColDoc (rows : List Row) : Doc :=
  { allActions := some (Table.mk
      (some (some [textCell "Date", textCell "All Actions"])) (some rows)) }


/-- A committees page with the standard header and the given body rows. -/
def commDoc (rows : List Row) : Doc :=
  { committeesTable := some (Table.mk (some (some commHeader)) (some rows)) }

/-- The committee entries of the carry-forward example: one header row
followed by two header-less rows, all reporting the carried name. -/
def commOut : List Committee :=
  [⟨"Judiciary".data, some ⟨2021, 1, 2, 0, 0⟩, "Referred".data, [], false⟩,
   ⟨"Judiciary".data, some ⟨2021, 1, 3, 0, 0⟩, "Hearings".data, [], false⟩,
   ⟨"Judiciary".data, some ⟨2021, 1, 4, 0, 0⟩, "Markup".data, [], false⟩]


/-- The serialization convention of the associative-array dump, as shown in
the decoder docstring (bill.py lines 61-65): one indented `[key] => value`
pair per line inside an `Array ( ... )` envelope. -/
def phpLine (kv : Str × Str) : Str :=
  "    [".data ++ kv.1 ++ "] => ".data ++ kv.2

/-- The first line of the stripped core: the global strip removes its
indentation. -/
def phpLineBare (kv : Str × Str) : Str :=
  "[".data ++ kv.1 ++ "] => ".data ++ kv.2

/-- The serialized associative-array block. -/
def phpSerialize (kvs : List (Str × Str)) : Str :=
  "Array\n(\n".data ++ joinSep ['\n'] (kvs.map phpLine) ++ "\n)".data

/-- The head character, when present, lies outside the set. -/
def headNotIn (set : Str) (s : Str) : Bool :=
  match s.head? with
  | none => true
  | some c => !(set.contains c)

/-- The last character, when present, lies outside the set. -/
def lastNotIn (set : Str) (s : Str) : Bool :=
  match s.getLast? with
  | none => true
  | some c => !(set.contains c)

/-- A key the decoder can recover: non-empty, free of newlines and of the
separator token, and not decorated at either end with the bracket/space
characters the decoder strips from keys. -/
def goodKey (k : Str) : Bool :=
  !k.isEmpty && headNotIn "[] ".data k && lastNotIn "[] ".data k &&
    !(k.contains '\n') && !containsSub "=>".data k

/-- A value the decoder can recover: non-empty, free of newlines and of
the separator token, and invariant under whitespace stripping. -/
def goodVal (v : Str) : Bool :=
  !v.isEmpty && !(v.contains '\n') && !containsSub "=>".data v &&
    (pyStrip v == v)


theorem splitOnLF_eq (sep : Str) :
    ∀ (f : Nat) (s : Str), s.length ≤ f → splitOnLF sep f s = splitOnL sep s := by
  intro f
  induction f using Nat.strong_induction_on with
  | _ f ih =>
    intro s hs
    match f, s with
    | 0, [] => rfl
    | g + 1, [] => rfl
    | 0, c :: cs => simp at hs
    | f + 1, c :: cs =>
      have hcs : cs.length ≤ f := by
        simpa using hs
      show _ = splitOnLF sep (cs.length + 1) (c :: cs)
      rw [splitOnLF, splitOnLF]
      by_cases hp : sep ≠ [] ∧ sep.isPrefixOf (c :: cs)
      · simp only [if_pos hp]
        have h1 : 1 ≤ sep.length := List.length_pos.mpr hp.1
        have hd : ((c :: cs).drop sep.length).length ≤ f := by
          simp only [List.length_drop, List.length_cons]
          omega
        have hdc : ((c :: cs).drop sep.length).length ≤ cs.length := by
          simp only [List.length_drop, List.length_cons]
          omega
        rw [ih f (Nat.lt_succ_self f) _ hd,
          ih cs.length (Nat.lt_succ_of_le hcs) _ hdc]
      · simp only [if_neg hp]
        rw [ih f (Nat.lt_succ_self f) cs hcs,
          ih cs.length (Nat.lt_succ_of_le hcs) cs le_rfl]

/-- One-step unfolding of `splitOnL` on a cons cell. -/
theorem splitOnL_cons (sep : Str) (c : Char) (cs : Str) :
    splitOnL sep (c :: cs) =
      if sep ≠ [] ∧ sep.isPrefixOf (c :: cs) then
        [] :: splitOnL sep ((c :: cs).drop sep.length)
      else
        match splitOnL sep cs with
        | y :: ys => (c :: y) :: ys
        | [] => [[c]] := by
  show splitOnLF sep (cs.length + 1) (c :: cs) = _
  rw [splitOnLF]
  by_cases hp : sep ≠ [] ∧ sep.isPrefixOf (c :: cs)
  · simp only [if_pos hp]
    have h1 : 1 ≤ sep.length := List.length_pos.mpr hp.1
    have hdc : ((c :: cs).drop sep.length).length ≤ cs.length := by
      simp only [List.length_drop, List.length_cons]
      omega
    rw [splitOnLF_eq sep cs.length _ hdc]
  · simp only [if_neg hp]
    rw [splitOnLF_eq sep cs.length cs le_rfl]

theorem replaceAllF_eq (pat repl : Str) :
    ∀ (f : Nat) (s : Str), s.length ≤ f →
      replaceAllF pat repl f s = replaceAll pat repl s := by
  intro f
  induction f using Nat.strong_induction_on with
  | _ f ih =>
    intro s hs
    match f, s with
    | 0, [] => rfl
    | g + 1, [] => rfl
    | 0, c :: cs => simp at hs
    | f + 1, c :: cs =>
      have hcs : cs.length ≤ f := by
        simpa using hs
      show _ = replaceAllF pat repl (cs.length + 1) (c :: cs)
      rw [replaceAllF, replaceAllF]
      by_cases hp : pat ≠ [] ∧ pat.isPrefixOf (c :: cs)
      · simp only [if_pos hp]
        have h1 : 1 ≤ pat.length := List.length_pos.mpr hp.1
        have hd : ((c :: cs).drop pat.length).length ≤ f := by
          simp only [List.length_drop, List.length_cons]
          omega
        have hdc : ((c :: cs).drop pat.length).length ≤ cs.length := by
          simp only [List.length_drop, List.length_cons]
          omega
        rw [ih f (Nat.lt_succ_self f) _ hd,
          ih cs.length (Nat.lt_succ_of_le hcs) _ hdc]
      · simp only [if_neg hp]
        rw [ih f (Nat.lt_succ_self f) cs hcs,
          ih cs.length (Nat.lt_succ_of_le hcs) cs le_rfl]

/-- One-step unfolding of `replaceAll` on a cons cell. -/
theorem replaceAll_cons (pat repl : Str) (c : Char) (cs : Str) :
    replaceAll pat repl (c :: cs) =
      if pat ≠ [] ∧ pat.isPrefixOf (c :: cs) then
        repl ++ replaceAll pat repl ((c :: cs).drop pat.length)
      else
        c :: replaceAll pat repl cs := by
  show replaceAllF pat repl (cs.length + 1) (c :: cs) = _
  rw [replaceAllF]
  by_cases hp : pat ≠ [] ∧ pat.isPrefixOf (c :: cs)
  · simp only [if_pos hp]
    have h1 : 1 ≤ pat.length := List.length_pos.mpr hp.1
    have hdc : ((c :: cs).drop pat.length).length ≤ cs.length := by
      simp only [List.length_drop, List.length_cons]
      omega
    rw [replaceAllF_eq pat repl cs.length _ hdc]
  · simp only [if_neg hp]
    rw [replaceAllF_eq pat repl cs.length cs le_rfl]

/-- C6: the claim says every withdrawal-schema row yields a cosponsor entry
that appears in the output list.  The code builds the full record for the
row (first conjunct) but the loop never appends it — bill.py line 680 is
the bare expression `consponsors` — so the output list is empty (second
conjunct). -/
theorem c6_withdraw_row_built_but_discarded :
    cosponsorRowWithdraw
        ["cosponsor".data, "date".data, "date withdrawn".data,
         "cr explanation".data] withdrawRow =
      .ok ⟨⟨"Rep.".data, "D".data, "CA".data, some "12".data, "Doe".data,
            "Jane Doe".data⟩,
           ⟨2021, 1, 2, 0, 0⟩,
           some ⟨⟨2021, 3, 4, 0, 0⟩, "CR E55".data, "https://x.gov/cr".data⟩⟩ ∧
    parse_consponsors bill0 withdrawDoc = .ok { bill0 with cosponsors := some [] } := by
  constructor
  · decide
  · decide

/-- C1 counterexample: the overview, tertiary and titles extractors do not
return an empty default when their container is absent — they raise the
`AttributeError` of calling a method on `None`. -/
theorem c1_absent_container_raises :
    parse_overview bill0 emptyDoc = .error .attributeError ∧
    parse_tertiary bill0 emptyDoc = .error .attributeError ∧
    parse_titles bill0 emptyDoc = .error .attributeError := by
  refine ⟨by decide, by decide, by decide⟩

/-- C1 (amended): absence of the container element yields the empty-list
default without error for the actions, cosponsors, committees,
related-bills, subjects and summaries extractors; the overview, tertiary
and titles extractors instead raise an attribute error on an absent
container. -/
theorem c1_absent_container_defaults :
    ∀ (bill : Bill) (doc : Doc),
      (doc.allActions = none →
        parse_actions bill doc = .ok { bill with actions := some [] }) ∧
      (doc.cosponsorsTable = none →
        parse_consponsors bill doc = .ok { bill with cosponsors := some [] }) ∧
      (doc.committeesTable = none →
        parse_committees bill doc = .ok { bill with committees := some [] }) ∧
      (doc.relatedTable = none →
        parse_related bill doc = .ok { bill with related := some [] }) ∧
      (doc.subjectsSec = none →
        parse_subjects bill doc = .ok { bill with subjects := some [] }) ∧
      (doc.summaryBlocks = none →
        parse_summaries bill doc = .ok { bill with summaries := some [] }) ∧
      (doc.overviewTable = none →
        parse_overview bill doc = .error .attributeError) ∧
      (doc.tertiarySections = none →
        parse_tertiary bill doc = .error .attributeError) ∧
      (doc.titlesDivs = none →
        parse_titles bill doc = .error .attributeError) := by
  intro bill doc
  refine ⟨?_, ?_, ?_, ?_, ?_, ?_, ?_, ?_, ?_⟩ <;> intro h
  · simp [parse_actions, h]
  · simp [parse_consponsors, h]
  · simp [parse_committees, h]
  · simp [parse_related, h]
  · simp [parse_subjects, h]
  · simp [parse_summaries, h]
  · simp [parse_overview, h]
  · simp [parse_tertiary, h]
  · simp [parse_titles, h]

/-- C1 witness: the amended statement applied to the concrete empty page. -/
theorem c1_absent_container_defaults_witness :
    parse_actions bill0 emptyDoc = .ok { bill0 with actions := some [] } ∧
    parse_subjects bill0 emptyDoc = .ok { bill0 with subjects := some [] } ∧
    parse_titles bill0 emptyDoc = .error .attributeError :=
  ⟨(c1_absent_container_defaults bill0 emptyDoc).1 rfl,
   (c1_absent_container_defaults bill0 emptyDoc).2.2.2.2.1 rfl,
   (c1_absent_container_defaults bill0 emptyDoc).2.2.2.2.2.2.2.2 rfl⟩

/-- C4 counterexample: the related-bills extractor emits the href
`/a?u=http` unchanged although it does not start with `http`, because the
source tests substring containment (`"http" in href`) instead of a prefix. -/
theorem c4_related_url_unprefixed :
    startsWith "http".data "/a?u=http".data = false ∧
    parse_related bill0 (relatedLinkDoc "/a?u=http".data) =
      .ok { bill0 with
            related := some [⟨"/a?u=http".data, "Rel".data, "CRS".data⟩] } := by
  exact ⟨by decide, by decide⟩

/-- C4 (amended): hrefs collected by the actions and committees extractors
are emitted unchanged when they start with `http` and prefixed with
`https://www.congress.gov` otherwise; the related-bills extractor instead
prefixes only when `http` occurs nowhere in the href. -/
theorem c4_url_resolution :
    (∀ (href : Str) (bill : Bill),
      (parse_actions bill (actionsLinkDoc href)).map
          (fun b => b.actions.map (fun acts => acts.map Action.links)) =
        .ok (some [[⟨"Roll 7".data,
          if startsWith "http".data href then href
          else "https://www.congress.gov".data ++ href⟩]])) ∧
    (∀ (href : Str) (bill : Bill),
      (parse_committees bill (committeesLinkDoc href)).map
          (fun b => b.committees.map (fun cs => cs.map Committee.related_documents)) =
        .ok (some [[⟨"H. Rept. 1".data,
          if startsWith "http".data href then href
          else "https://www.congress.gov".data ++ href⟩]])) ∧
    (∀ (href : Str) (bill : Bill),
      (parse_related bill (relatedLinkDoc href)).map
          (fun b => b.related.map (fun rs => rs.map Related.url)) =
        .ok (some [if containsSub "http".data href then href
          else "https://www.congress.gov".data ++ href])) := by
  refine ⟨fun href bill => rfl, fun href bill => rfl, fun href bill => rfl⟩

/-- C8: behaviour of the subjects extractor around the policy area.
First conjunct (backfill): a successful extraction that started with no
policy area and collected `Private Legislation` among the subjects ends
with the policy area set to `Private Legislation`.  Second conjunct
(mismatch): a recorded policy area plus a single side-panel entry whose
stripped text differs is a fatal assertion.  Third conjunct: a side panel
with two or more entries is an error. -/
theorem c8_subjects_policy_area :
    (∀ (bill : Bill) (doc : Doc) (b2 : Bill),
      parse_subjects bill doc = .ok b2 →
      bill.policy_area = none →
      "Private Legislation".data ∈ b2.subjects.getD [] →
      b2.policy_area = some "Private Legislation".data) ∧
    (∀ (bill : Bill) (doc : Doc) (e : Str) (mainPart : Option (List Str)) (p : Str),
      doc.subjectsSec = some ⟨some [e], mainPart⟩ →
      bill.policy_area = some p →
      p ≠ pyStrip e →
      parse_subjects bill doc = .error .assertionError) ∧
    (∀ (bill : Bill) (doc : Doc) (navl : List Str) (mainPart : Option (List Str)),
      doc.subjectsSec = some ⟨some navl, mainPart⟩ →
      2 ≤ navl.length →
      parse_subjects bill doc = .error (.valueError "Invalid number of policy areas")) := by
  refine ⟨?_, ?_, ?_⟩
  · intro bill doc b2 hok hpa hmem
    match hsec : doc.subjectsSec with
    | none =>
      rw [parse_subjects, hsec] at hok
      cases hok
      simp at hmem
    | some sec =>
      match hnav : sec.nav with
      | none =>
        rw [parse_subjects, hsec] at hok
        simp [hnav, Bind.bind, Except.bind] at hok
      | some lis =>
        match lis with
        | [] =>
          rw [parse_subjects, hsec] at hok
          simp only [hnav] at hok
          match hmain : sec.main with
          | none =>
            simp [hmain] at hok
            cases hok
            simp at hmem
          | some mls =>
            simp only [hmain, List.length_nil, if_pos rfl] at hok
            simp only [Except.bind, pure, Except.pure] at hok
            by_cases hc : mls.map pyStrip ≠ [] ∧ bill.policy_area = none ∧
                (mls.map pyStrip).contains "Private Legislation".data
            · rw [if_pos hc] at hok
              cases hok
              rfl
            · rw [if_neg hc] at hok
              cases hok
              exfalso
              apply hc
              simp only [hpa, true_and]
              have hmem2 : "Private Legislation".data ∈ mls.map pyStrip := by
                simpa using hmem
              exact ⟨List.ne_nil_of_mem hmem2, by simpa using hmem2⟩
        | [e] =>
          rw [parse_subjects, hsec] at hok
          simp only [hnav, hpa] at hok
          simp [Bind.bind, Except.bind] at hok
        | e1 :: e2 :: rest =>
          rw [parse_subjects, hsec] at hok
          simp [hnav, Bind.bind, Except.bind] at hok
  · intro bill doc e mainPart p hsec hpa hne
    rw [parse_subjects, hsec]
    have hbeq : (p == pyStrip e) = false := by
      simpa using hne
    simp [hpa, hbeq, Bind.bind, Except.bind]
  · intro bill doc navl mainPart hsec hlen
    rw [parse_subjects, hsec]
    have h0 : navl.length ≠ 0 := by omega
    have h1 : navl.length ≠ 1 := by omega
    simp [h0, h1, Bind.bind, Except.bind]

/-- Bind on a success value reduces. -/
theorem exceptBind_ok (a : α) (f : α → Except PyErr β) :
    (Except.ok a >>= f) = f a := rfl

/-- Bind on an error short-circuits. -/
theorem exceptBind_err (e : PyErr) (f : α → Except PyErr β) :
    ((Except.error e : Except PyErr α) >>= f) = Except.error e := rfl

/-- Pure in the `Except` monad is `ok`. -/
theorem exceptPure (a : α) : (pure a : Except PyErr α) = Except.ok a := rfl

/-- Dissect a successful monadic bind in `Except`. -/
theorem bind_ok {α β : Type} {e : Except PyErr α} {f : α → Except PyErr β} {b : β}
    (h : (e >>= f) = .ok b) : ∃ a, e = .ok a ∧ f a = .ok b := by
  cases e with
  | error err => simp [Bind.bind, Except.bind] at h
  | ok a => exact ⟨a, rfl, by simpa [Bind.bind, Except.bind] using h⟩

/-- Frame of the actions extractor: on success only `actions` changes. -/
theorem frame_actions (bill : Bill) (doc : Doc) (b2 : Bill)
    (h : parse_actions bill doc = .ok b2) :
    b2 = { bill with actions := b2.actions } := by
  match hdoc : doc.allActions with
  | none =>
    rw [parse_actions, hdoc] at h
    cases h
    rfl
  | some tbl =>
    rw [parse_actions, hdoc] at h
    match hth : tbl.thead with
    | none =>
      simp only [hth, exceptBind_err] at h
      cases h
    | some none =>
      simp only [hth, exceptBind_ok] at h
      cases h
      rfl
    | some (some cols) =>
      simp only [hth, exceptBind_ok] at h
      by_cases hc1 : setEqS (headerNames cols)
          ["date".data, "chamber".data, "all actions".data]
      · rw [if_pos hc1] at h
        obtain ⟨keys, _, h⟩ := bind_ok h
        obtain ⟨rows, _, h⟩ := bind_ok h
        obtain ⟨acts, _, h⟩ := bind_ok h
        cases h
        rfl
      · rw [if_neg hc1] at h
        by_cases hc2 : setEqS (headerNames cols)
            ["date".data, "all actions".data]
        · rw [if_pos hc2] at h
          obtain ⟨keys, _, h⟩ := bind_ok h
          obtain ⟨rows, _, h⟩ := bind_ok h
          obtain ⟨acts, _, h⟩ := bind_ok h
          cases h
          rfl
        · rw [if_neg hc2] at h
          cases h

/-- Frame of the cosponsors extractor: on success only `cosponsors`
changes. -/
theorem frame_consponsors (bill : Bill) (doc : Doc) (b2 : Bill)
    (h : parse_consponsors bill doc = .ok b2) :
    b2 = { bill with cosponsors := b2.cosponsors } := by
  match hdoc : doc.cosponsorsTable with
  | none =>
    rw [parse_consponsors, hdoc] at h
    cases h
    rfl
  | some tbl =>
    rw [parse_consponsors, hdoc] at h
    match hth : tbl.thead with
    | none =>
      simp only [hth] at h
      cases h
      rfl
    | some none =>
      simp only [hth] at h
      cases h
      rfl
    | some (some cols) =>
      simp only [hth] at h
      by_cases hc1 : setEqS (headerNames cols)
          ["cosponsor".data, "date cosponsored".data]
      · rw [if_pos hc1] at h
        obtain ⟨keys, _, h⟩ := bind_ok h
        obtain ⟨rows, _, h⟩ := bind_ok h
        obtain ⟨cs, _, h⟩ := bind_ok h
        cases h
        rfl
      · rw [if_neg hc1] at h
        by_cases hc2 : setEqS (headerNames cols)
            ["cosponsors who withdrew".data, "date cosponsored".data,
             "date withdrawn".data, "cr explanation".data]
        · rw [if_pos hc2] at h
          obtain ⟨keys, _, h⟩ := bind_ok h
          obtain ⟨rows, _, h⟩ := bind_ok h
          obtain ⟨u, _, h⟩ := bind_ok h
          cases h
          rfl
        · rw [if_neg hc2] at h
          cases h

/-- Frame of the committees extractor: on success only `committees`
changes. -/
theorem frame_committees (bill : Bill) (doc : Doc) (b2 : Bill)
    (h : parse_committees bill doc = .ok b2) :
    b2 = { bill with committees := b2.committees } := by
  match hdoc : doc.committeesTable with
  | none =>
    rw [parse_committees, hdoc] at h
    cases h
    rfl
  | some tbl =>
    rw [parse_committees, hdoc] at h
    match hth : tbl.thead with
    | none =>
      simp only [hth] at h
      cases h
      rfl
    | some none =>
      simp only [hth] at h
      cases h
      rfl
    | some (some cols) =>
      simp only [hth] at h
      by_cases hc1 : setEqS (headerNames cols)
          ["committee / subcommittee".data, "date".data, "activity".data,
           "related documents".data]
      · rw [if_pos hc1] at h
        obtain ⟨keys, _, h⟩ := bind_ok h
        obtain ⟨rows, _, h⟩ := bind_ok h
        obtain ⟨cs, _, h⟩ := bind_ok h
        cases h
        rfl
      · rw [if_neg hc1] at h
        cases h

/-- Frame of the related-bills extractor: on success only `related`
changes. -/
theorem frame_related (bill : Bill) (doc : Doc) (b2 : Bill)
    (h : parse_related bill doc = .ok b2) :
    b2 = { bill with related := b2.related } := by
  match hdoc : doc.relatedTable with
  | none =>
    rw [parse_related, hdoc] at h
    cases h
    rfl
  | some tbl =>
    rw [parse_related, hdoc] at h
    match hth : tbl.thead with
    | none =>
      simp only [hth] at h
      cases h
      rfl
    | some none =>
      simp only [hth] at h
      cases h
      rfl
    | some (some cols) =>
      simp only [hth] at h
      by_cases hc1 : setEqS ((headerNames cols).map (fun c =>
          if startsWith "relationships to".data c then "relationships to".data else c))
          ["bill".data, "latest title".data, "relationships to".data,
           "relationships identified by".data, "latest action".data]
      · rw [if_pos hc1] at h
        obtain ⟨keys, _, h⟩ := bind_ok h
        obtain ⟨rows, _, h⟩ := bind_ok h
        obtain ⟨rs, _, h⟩ := bind_ok h
        cases h
        rfl
      · rw [if_neg hc1] at h
        cases h

/-- Frame of the summaries extractor: on success only `summaries`
changes. -/
theorem frame_summaries (bill : Bill) (doc : Doc) (b2 : Bill)
    (h : parse_summaries bill doc = .ok b2) :
    b2 = { bill with summaries := b2.summaries } := by
  match hdoc : doc.summaryBlocks with
  | none =>
    rw [parse_summaries, hdoc] at h
    cases h
    rfl
  | some blocks =>
    rw [parse_summaries, hdoc] at h
    dsimp only at h
    obtain ⟨sums, _, h⟩ := bind_ok h
    cases h
    rfl

/-- Frame of the titles extractor: on success only `titles` changes. -/
theorem frame_titles (bill : Bill) (doc : Doc) (b2 : Bill)
    (h : parse_titles bill doc = .ok b2) :
    b2 = { bill with titles := b2.titles } := by
  match hdoc : doc.titlesDivs with
  | none => rw [parse_titles, hdoc] at h; cases h
  | some divs =>
    rw [parse_titles, hdoc] at h
    dsimp only at h
    by_cases h3 : divs.length = 3
    · rw [if_pos h3] at h
      by_cases hcls : divs.map ChildDiv.cls =
          ["shortTitles".data, "titles-row".data, "officialTitles".data]
      · rw [if_pos hcls] at h
        obtain ⟨all, _, h⟩ := bind_ok h
        obtain ⟨titles, _, h⟩ := bind_ok h
        cases h
        rfl
      · rw [if_neg hcls] at h
        simp only [exceptBind_err] at h
        cases h
    · rw [if_neg h3] at h
      by_cases h1 : divs.length = 1
      · rw [if_pos h1] at h
        obtain ⟨all, _, h⟩ := bind_ok h
        obtain ⟨titles, _, h⟩ := bind_ok h
        cases h
        rfl
      · rw [if_neg h1] at h
        simp only [exceptBind_err] at h
        cases h

/-- Frame of the overview extractor: on success only `sponsor`, `tracker`
and `reports` change. -/
theorem frame_overview (bill : Bill) (doc : Doc) (b2 : Bill)
    (h : parse_overview bill doc = .ok b2) :
    b2 = { bill with sponsor := b2.sponsor, tracker := b2.tracker,
                     reports := b2.reports } := by
  match hdoc : doc.overviewTable with
  | none => rw [parse_overview, hdoc] at h; cases h
  | some rows =>
    rw [parse_overview, hdoc] at h
    dsimp only at h
    obtain ⟨out, _, h⟩ := bind_ok h
    cases h
    rfl

/-- Frame of the tertiary extractor: on success only the three tertiary
fields change. -/
theorem frame_tertiary (bill : Bill) (doc : Doc) (b2 : Bill)
    (h : parse_tertiary bill doc = .ok b2) :
    b2 = { bill with
           constitutional_authority_statement :=
             b2.constitutional_authority_statement,
           cbo_estimates := b2.cbo_estimates,
           policy_area := b2.policy_area } := by
  match hdoc : doc.tertiarySections with
  | none => rw [parse_tertiary, hdoc] at h; cases h
  | some secs =>
    rw [parse_tertiary, hdoc] at h
    dsimp only at h
    obtain ⟨t, _, h⟩ := bind_ok h
    cases h
    rfl

/-- Frame of the subjects extractor: on success only `subjects` and
(possibly) `policy_area` change, the latter only by the private-legislation
backfill. -/
theorem frame_subjects (bill : Bill) (doc : Doc) (b2 : Bill)
    (h : parse_subjects bill doc = .ok b2) :
    b2 = { bill with subjects := b2.subjects, policy_area := b2.policy_area } ∧
    (b2.policy_area = bill.policy_area ∨
      (bill.policy_area = none ∧
       b2.policy_area = some "Private Legislation".data)) := by
  match hdoc : doc.subjectsSec with
  | none =>
    rw [parse_subjects, hdoc] at h
    cases h
    exact ⟨rfl, Or.inl rfl⟩
  | some sec =>
    rw [parse_subjects, hdoc] at h
    match hnav : sec.nav with
    | none =>
      simp only [hnav, exceptBind_err] at h
      cases h
    | some lis =>
      simp only [hnav, exceptBind_ok] at h
      by_cases h0 : lis.length = 0
      · rw [if_pos h0] at h
        simp only [exceptPure, exceptBind_ok] at h
        match hmain : sec.main with
        | none =>
          simp only [hmain] at h
          cases h
          exact ⟨rfl, Or.inl rfl⟩
        | some mls =>
          simp only [hmain] at h
          by_cases hc : mls.map pyStrip ≠ [] ∧ bill.policy_area = none ∧
              (mls.map pyStrip).contains "Private Legislation".data
          · rw [if_pos hc] at h
            cases h
            exact ⟨rfl, Or.inr ⟨hc.2.1, rfl⟩⟩
          · rw [if_neg hc] at h
            cases h
            exact ⟨rfl, Or.inl rfl⟩
      · rw [if_neg h0] at h
        by_cases h1 : lis.length = 1
        · rw [if_pos h1] at h
          by_cases hpq : (match bill.policy_area with
              | some p => p == pyStrip (lis.headD [])
              | none => false) = true
          · rw [if_pos hpq] at h
            simp only [exceptPure, exceptBind_ok] at h
            match hmain : sec.main with
            | none =>
              simp only [hmain] at h
              cases h
              exact ⟨rfl, Or.inl rfl⟩
            | some mls =>
              simp only [hmain] at h
              by_cases hc : mls.map pyStrip ≠ [] ∧ bill.policy_area = none ∧
                  (mls.map pyStrip).contains "Private Legislation".data
              · rw [if_pos hc] at h
                cases h
                exact ⟨rfl, Or.inr ⟨hc.2.1, rfl⟩⟩
              · rw [if_neg hc] at h
                cases h
                exact ⟨rfl, Or.inl rfl⟩
          · rw [if_neg hpq] at h
            cases h
        · rw [if_neg h1] at h
          cases h

/-- C10: every extractor returns the record it was given with only its own
output fields changed.  Each conjunct says: on success the result equals
the input record with only the named fields replaced (the record-update
equality forces every other field to be unchanged); for the subjects
extractor, `policy_area` moreover changes only by the private-legislation
backfill from `None`. -/
theorem c10_extractors_frame :
    (∀ (bill : Bill) (doc : Doc) (b2 : Bill), parse_overview bill doc = .ok b2 →
      b2 = { bill with sponsor := b2.sponsor, tracker := b2.tracker,
                       reports := b2.reports }) ∧
    (∀ (bill : Bill) (doc : Doc) (b2 : Bill), parse_tertiary bill doc = .ok b2 →
      b2 = { bill with
             constitutional_authority_statement :=
               b2.constitutional_authority_statement,
             cbo_estimates := b2.cbo_estimates,
             policy_area := b2.policy_area }) ∧
    (∀ (bill : Bill) (doc : Doc) (b2 : Bill), parse_titles bill doc = .ok b2 →
      b2 = { bill with titles := b2.titles }) ∧
    (∀ (bill : Bill) (doc : Doc) (b2 : Bill), parse_actions bill doc = .ok b2 →
      b2 = { bill with actions := b2.actions }) ∧
    (∀ (bill : Bill) (doc : Doc) (b2 : Bill), parse_consponsors bill doc = .ok b2 →
      b2 = { bill with cosponsors := b2.cosponsors }) ∧
    (∀ (bill : Bill) (doc : Doc) (b2 : Bill), parse_committees bill doc = .ok b2 →
      b2 = { bill with committees := b2.committees }) ∧
    (∀ (bill : Bill) (doc : Doc) (b2 : Bill), parse_related bill doc = .ok b2 →
      b2 = { bill with related := b2.related }) ∧
    (∀ (bill : Bill) (doc : Doc) (b2 : Bill), parse_subjects bill doc = .ok b2 →
      b2 = { bill with subjects := b2.subjects, policy_area := b2.policy_area } ∧
      (b2.policy_area = bill.policy_area ∨
        (bill.policy_area = none ∧
         b2.policy_area = some "Private Legislation".data))) ∧
    (∀ (bill : Bill) (doc : Doc) (b2 : Bill), parse_summaries bill doc = .ok b2 →
      b2 = { bill with summaries := b2.summaries }) :=
  ⟨frame_overview, frame_tertiary, frame_titles, frame_actions,
   frame_consponsors, frame_committees, frame_related, frame_subjects,
   frame_summaries⟩

/-- C10 witness: the frame statement applied to concrete runs of all nine
extractors on `doc10`. -/
theorem c10_extractors_frame_witness :
    (bill0 = { bill0 with sponsor := bill0.sponsor, tracker := bill0.tracker,
                          reports := bill0.reports }) ∧
    (({ bill0 with titles := some [] } : Bill) =
      { bill0 with titles := ({ bill0 with titles := some [] } : Bill).titles }) ∧
    (({ bill0 with actions := some [] } : Bill) =
      { bill0 with actions := ({ bill0 with actions := some [] } : Bill).actions }) ∧
    (({ bill0 with subjects := some [] } : Bill).policy_area = bill0.policy_area ∨
      (bill0.policy_area = none ∧
       ({ bill0 with subjects := some [] } : Bill).policy_area =
         some "Private Legislation".data)) :=
  ⟨c10_extractors_frame.1 bill0 doc10 bill0 (by decide),
   c10_extractors_frame.2.2.1 bill0 doc10 { bill0 with titles := some [] } (by decide),
   c10_extractors_frame.2.2.2.1 bill0 doc10 { bill0 with actions := some [] } (by decide),
   (c10_extractors_frame.2.2.2.2.2.2.2.1 bill0 doc10
     { bill0 with subjects := some [] } (by decide)).2⟩

/-- C8 witness: each conjunct of `c8_subjects_policy_area` applied to a
concrete page. -/
theorem c8_subjects_policy_area_witness :
    subjOut.policy_area = some "Private Legislation".data ∧
    parse_subjects { bill0 with policy_area := some "Health".data }
        subjMismatchDoc = .error .assertionError ∧
    parse_subjects bill0 subjTwoNavDoc =
      .error (.valueError "Invalid number of policy areas") :=
  ⟨c8_subjects_policy_area.1 bill0 subjBackfillDoc subjOut (by decide) rfl (by decide),
   c8_subjects_policy_area.2.1 { bill0 with policy_area := some "Health".data }
     subjMismatchDoc " Agriculture ".data (some []) "Health".data rfl rfl (by decide),
   c8_subjects_policy_area.2.2 bill0 subjTwoNavDoc ["A".data, "B".data] none rfl
     (by decide)⟩

/-- No valid title prefixes the string: the title dispatch raises. -/
theorem getTitle_err (s : Str)
    (h : ∀ t ∈ validTitles, startsWith t s = false) :
    getTitle s = .error (.valueError "Invalid sponsor") := by
  rw [getTitle]
  have hf : validTitles.filter (fun t => startsWith t s) = [] := by
    rw [List.filter_eq_nil_iff]
    intro t ht
    simp [h t ht]
  rw [hf]

/-- C2: behaviour of both identity-decoder variants.
First conjunct: a string prefixed by no valid title makes both variants
raise the invalid-sponsor `ValueError`.  Second and third conjunct: any
accepted input relates to its bracketed position token by hyphen count —
one hyphen gives the two hyphen-separated parts as party and state with no
district, two hyphens give the three parts as party, state and district.
Fourth and fifth conjunct: a position token with any other hyphen count
makes the decoder raise the invalid-position `ValueError`. -/
theorem c2_identity_decoder :
    (∀ s : Str, (∀ t ∈ validTitles, startsWith t s = false) →
      parse_overview_sponsor s = .error (.valueError "Invalid sponsor") ∧
      parse_cosponsor s = .error (.valueError "Invalid sponsor")) ∧
    (∀ (s : Str) (out : SponsorCore), parse_overview_sponsor s = .ok out →
      ∃ pos, sponsorPos s = .ok pos ∧
        ((countChar '-' pos = 1 ∧ splitOnChar '-' pos = [out.party, out.state] ∧
            out.district = none) ∨
         (countChar '-' pos = 2 ∧ ∃ d, splitOnChar '-' pos = [out.party, out.state, d] ∧
            out.district = some d))) ∧
    (∀ (s : Str) (out : SponsorCore), parse_cosponsor s = .ok out →
      ∃ pos, cosponsorPos s = .ok pos ∧
        ((countChar '-' pos = 1 ∧ splitOnChar '-' pos = [out.party, out.state] ∧
            out.district = none) ∨
         (countChar '-' pos = 2 ∧ ∃ d, splitOnChar '-' pos = [out.party, out.state, d] ∧
            out.district = some d))) ∧
    (∀ (s : Str) (pos : Str), sponsorPos s = .ok pos →
      countChar '-' pos ≠ 1 → countChar '-' pos ≠ 2 →
      parse_overview_sponsor s = .error (.valueError "Invalid position")) ∧
    (∀ (s : Str) (pos : Str), cosponsorPos s = .ok pos →
      countChar '-' pos ≠ 1 → countChar '-' pos ≠ 2 →
      parse_cosponsor s = .error (.valueError "Invalid position")) := by
  refine ⟨?_, ?_, ?_, ?_, ?_⟩
  · intro s h
    have hg := getTitle_err s h
    constructor
    · rw [parse_overview_sponsor, sponsorPrep, hg]
      rfl
    · rw [parse_cosponsor, cosponsorPrep, hg]
      rfl
  · intro s out hok
    rw [parse_overview_sponsor] at hok
    obtain ⟨p, hp, hok⟩ := bind_ok hok
    obtain ⟨title, s1⟩ := p
    dsimp only at hok
    obtain ⟨pos, hpos, hok⟩ := bind_ok hok
    refine ⟨pos, ?_, ?_⟩
    · rw [sponsorPos, hp, exceptBind_ok, hpos]
    · obtain ⟨psd, hpsd, hok⟩ := bind_ok hok
      obtain ⟨party, state, district⟩ := psd
      dsimp only at hok
      obtain ⟨first, hfirst, hok⟩ := bind_ok hok
      cases hok
      rw [posParse] at hpsd
      by_cases hn1 : countChar '-' pos = 1
      · rw [if_pos hn1] at hpsd
        match hsplit : splitOnChar '-' pos with
        | [] => rw [hsplit] at hpsd; cases hpsd
        | [a] => rw [hsplit] at hpsd; cases hpsd
        | [a, b] =>
          rw [hsplit] at hpsd
          cases hpsd
          exact Or.inl ⟨hn1, rfl, rfl⟩
        | a :: b :: c :: rest => rw [hsplit] at hpsd; cases hpsd
      · rw [if_neg hn1] at hpsd
        by_cases hn2 : countChar '-' pos = 2
        · rw [if_pos hn2] at hpsd
          match hsplit : splitOnChar '-' pos with
          | [] => rw [hsplit] at hpsd; cases hpsd
          | [a] => rw [hsplit] at hpsd; cases hpsd
          | [a, b] => rw [hsplit] at hpsd; cases hpsd
          | [a, b, c] =>
            rw [hsplit] at hpsd
            cases hpsd
            exact Or.inr ⟨hn2, c, rfl, rfl⟩
          | a :: b :: c :: d :: rest => rw [hsplit] at hpsd; cases hpsd
        · rw [if_neg hn2] at hpsd
          cases hpsd
  · intro s out hok
    rw [parse_cosponsor] at hok
    obtain ⟨p, hp, hok⟩ := bind_ok hok
    obtain ⟨title, s1⟩ := p
    dsimp only at hok
    obtain ⟨pos, hpos, hok⟩ := bind_ok hok
    refine ⟨pos, ?_, ?_⟩
    · rw [cosponsorPos, hp, exceptBind_ok, hpos]
    · obtain ⟨psd, hpsd, hok⟩ := bind_ok hok
      obtain ⟨party, state, district⟩ := psd
      dsimp only at hok
      obtain ⟨first, hfirst, hok⟩ := bind_ok hok
      cases hok
      rw [posParse] at hpsd
      by_cases hn1 : countChar '-' pos = 1
      · rw [if_pos hn1] at hpsd
        match hsplit : splitOnChar '-' pos with
        | [] => rw [hsplit] at hpsd; cases hpsd
        | [a] => rw [hsplit] at hpsd; cases hpsd
        | [a, b] =>
          rw [hsplit] at hpsd
          cases hpsd
          exact Or.inl ⟨hn1, rfl, rfl⟩
        | a :: b :: c :: rest => rw [hsplit] at hpsd; cases hpsd
      · rw [if_neg hn1] at hpsd
        by_cases hn2 : countChar '-' pos = 2
        · rw [if_pos hn2] at hpsd
          match hsplit : splitOnChar '-' pos with
          | [] => rw [hsplit] at hpsd; cases hpsd
          | [a] => rw [hsplit] at hpsd; cases hpsd
          | [a, b] => rw [hsplit] at hpsd; cases hpsd
          | [a, b, c] =>
            rw [hsplit] at hpsd
            cases hpsd
            exact Or.inr ⟨hn2, c, rfl, rfl⟩
          | a :: b :: c :: d :: rest => rw [hsplit] at hpsd; cases hpsd
        · rw [if_neg hn2] at hpsd
          cases hpsd
  · intro s pos hpos hn1 hn2
    rw [sponsorPos] at hpos
    obtain ⟨p, hp, hpos⟩ := bind_ok hpos
    obtain ⟨title, s1⟩ := p
    dsimp only at hpos
    rw [parse_overview_sponsor, hp, exceptBind_ok]
    dsimp only
    rw [hpos, exceptBind_ok, posParse]
    rw [if_neg hn1, if_neg hn2]
    rfl
  · intro s pos hpos hn1 hn2
    rw [cosponsorPos] at hpos
    obtain ⟨p, hp, hpos⟩ := bind_ok hpos
    obtain ⟨title, s1⟩ := p
    dsimp only at hpos
    rw [parse_cosponsor, hp, exceptBind_ok]
    dsimp only
    rw [hpos, exceptBind_ok, posParse]
    rw [if_neg hn1, if_neg hn2]
    rfl

/-- C2 witness: the five conjuncts applied to concrete identity strings. -/
theorem c2_identity_decoder_witness :
    parse_cosponsor "Mr. Smith, John [R-TX]".data =
      .error (.valueError "Invalid sponsor") ∧
    (∃ pos, sponsorPos "Rep. Smith, John [R-TX] (Introduced 01/02/2021)".data = .ok pos ∧
      ((countChar '-' pos = 1 ∧ splitOnChar '-' pos = ["R".data, "TX".data] ∧
          (none : Option Str) = none) ∨
       (countChar '-' pos = 2 ∧ ∃ d, splitOnChar '-' pos = ["R".data, "TX".data, d] ∧
          (none : Option Str) = some d))) ∧
    (∃ pos, cosponsorPos "Rep. Doe, Jane [D-CA-12]".data = .ok pos ∧
      ((countChar '-' pos = 1 ∧ splitOnChar '-' pos = ["D".data, "CA".data] ∧
          (some "12".data : Option Str) = none) ∨
       (countChar '-' pos = 2 ∧ ∃ d, splitOnChar '-' pos = ["D".data, "CA".data, d] ∧
          (some "12".data : Option Str) = some d))) ∧
    parse_overview_sponsor "Rep. Poe, Ed [R-TX-2-9] (Introduced 01/02/2021)".data =
      .error (.valueError "Invalid position") ∧
    parse_cosponsor "Rep. Poe, Ed [R-TX-2-9]".data =
      .error (.valueError "Invalid position") :=
  ⟨(c2_identity_decoder.1 "Mr. Smith, John [R-TX]".data (by decide)).2,
   c2_identity_decoder.2.1 "Rep. Smith, John [R-TX] (Introduced 01/02/2021)".data
     ⟨"Rep.".data, "R".data, "TX".data, none, "Smith".data, "John Smith".data⟩
     (by decide),
   c2_identity_decoder.2.2.1 "Rep. Doe, Jane [D-CA-12]".data
     ⟨"Rep.".data, "D".data, "CA".data, some "12".data, "Doe".data, "Jane Doe".data⟩
     (by decide),
   c2_identity_decoder.2.2.2.1 "Rep. Poe, Ed [R-TX-2-9] (Introduced 01/02/2021)".data
     "R-TX-2-9".data (by decide) (by decide) (by decide),
   c2_identity_decoder.2.2.2.2 "Rep. Poe, Ed [R-TX-2-9]".data
     "R-TX-2-9".data (by decide) (by decide) (by decide)⟩


/-- Substring containment characterized by a split of the string. -/
theorem containsSub_iff (pat s : Str) :
    containsSub pat s = true ↔ ∃ u v : Str, s = u ++ pat ++ v := by
  induction s with
  | nil =>
    simp only [containsSub]
    constructor
    · intro h
      have hp : pat = [] := List.prefix_nil.mp (List.isPrefixOf_iff_prefix.mp h)
      exact ⟨[], [], by simp [hp]⟩
    · rintro ⟨u, v, h⟩
      have hu : u = [] ∧ pat = [] := by
        constructor <;> [cases u; cases pat] <;> simp_all
      simp [hu.2, List.isPrefixOf]
  | cons c cs ih =>
    simp only [containsSub, Bool.or_eq_true]
    constructor
    · rintro (h | h)
      · obtain ⟨t, ht⟩ := List.isPrefixOf_iff_prefix.mp h
        exact ⟨[], t, by simp [← ht]⟩
      · obtain ⟨u, v, huv⟩ := ih.mp h
        exact ⟨c :: u, v, by simp [huv]⟩
    · rintro ⟨u, v, huv⟩
      match u with
      | [] =>
        left
        exact List.isPrefixOf_iff_prefix.mpr ⟨v, by simpa using huv.symm⟩
      | c2 :: u2 =>
        right
        apply ih.mpr
        refine ⟨u2, v, ?_⟩
        have := congrArg List.tail huv
        simpa using this

/-- Containment is monotone in the infix order. -/
theorem containsSub_mono {pat t s : Str} (h : containsSub pat t = true)
    (hinf : t <:+: s) : containsSub pat s = true := by
  obtain ⟨u, v, huv⟩ := (containsSub_iff pat t).mp h
  obtain ⟨a, b, hab⟩ := hinf
  apply (containsSub_iff pat s).mpr
  refine ⟨a ++ u, v ++ b, ?_⟩
  rw [← hab, huv]
  simp

/-- Non-containment passes to infixes. -/
theorem not_containsSub_mono {pat t s : Str} (h : containsSub pat s = false)
    (hinf : t <:+: s) : containsSub pat t = false := by
  by_contra hc
  rw [Bool.not_eq_false] at hc
  rw [containsSub_mono hc hinf] at h
  cases h

/-- The trailing strip yields a prefix. -/
theorem dropTrailing_front (p : Char → Bool) (s : Str) :
    dropTrailing p s <+: s := by
  obtain ⟨t, ht⟩ := List.dropWhile_suffix (l := s.reverse) p
  refine ⟨t.reverse, ?_⟩
  rw [dropTrailing, ← List.reverse_append, ht, List.reverse_reverse]

/-- The whitespace strip yields an infix. -/
theorem pyStrip_within (s : Str) : pyStrip s <:+: s :=
  ((dropTrailing_front pyIsSpace (s.dropWhile pyIsSpace)).isInfix).trans
    (List.dropWhile_suffix pyIsSpace).isInfix

/-- A split never returns the empty list of parts. -/
theorem splitOnL_ne_nil (sep s : Str) : splitOnL sep s ≠ [] := by
  induction s with
  | nil => simp [splitOnL, splitOnLF]
  | cons c cs ih =>
    rw [splitOnL_cons]
    by_cases hp : sep ≠ [] ∧ sep.isPrefixOf (c :: cs)
    · simp [hp]
    · simp only [if_neg hp]
      cases hys : splitOnL sep cs <;> simp

/-- Splitting a string that does not contain the separator is trivial. -/
theorem splitOnL_single {sep s : Str} (h : containsSub sep s = false) :
    splitOnL sep s = [s] := by
  induction s with
  | nil => rfl
  | cons c cs ih =>
    simp only [containsSub, Bool.or_eq_false_iff] at h
    rw [splitOnL_cons, if_neg (by simp [h.1]), ih h.2]

/-- Joining the parts of a split restores the string. -/
theorem joinSep_splitOnL {sep : Str} (s : Str) :
    joinSep sep (splitOnL sep s) = s := by
  have main : ∀ (n : Nat) (s : Str), s.length ≤ n →
      joinSep sep (splitOnL sep s) = s := by
    intro n
    induction n with
    | zero =>
      intro s hs
      have : s = [] := List.length_eq_zero.mp (Nat.le_zero.mp hs)
      subst this
      rfl
    | succ n ih =>
      intro s hs
      match s with
      | [] => rfl
      | c :: cs =>
        rw [splitOnL_cons]
        by_cases hp : sep ≠ [] ∧ sep.isPrefixOf (c :: cs)
        · rw [if_pos hp]
          have hsep1 : 1 ≤ sep.length := List.length_pos.mpr hp.1
          have hd : ((c :: cs).drop sep.length).length ≤ n := by
            simp only [List.length_drop, List.length_cons]
            simp only [List.length_cons] at hs
            omega
          have hrec := ih _ hd
          obtain ⟨y, ys, hys⟩ : ∃ y ys,
              splitOnL sep ((c :: cs).drop sep.length) = y :: ys := by
            cases hq : splitOnL sep ((c :: cs).drop sep.length) with
            | nil => exact absurd hq (splitOnL_ne_nil _ _)
            | cons y ys => exact ⟨y, ys, rfl⟩
          rw [hys]
          show [] ++ sep ++ joinSep sep (y :: ys) = c :: cs
          rw [← hys, hrec]
          obtain ⟨t, ht⟩ := List.isPrefixOf_iff_prefix.mp hp.2
          rw [← ht, List.drop_left]
          simp
        · rw [if_neg hp]
          have hcs : cs.length ≤ n := by
            simp only [List.length_cons] at hs
            omega
          have hrec := ih cs hcs
          cases hys : splitOnL sep cs with
          | nil => exact absurd hys (splitOnL_ne_nil _ _)
          | cons y ys =>
            rw [hys] at hrec
            cases ys with
            | nil =>
              simp only [joinSep] at hrec ⊢
              rw [hrec]
            | cons z zs =>
              simp only [joinSep] at hrec ⊢
              simp [← hrec]
  exact main s.length s le_rfl

/-- Joining after appending a final part. -/
theorem joinSep_concat (sep : Str) (a : Str) :
    ∀ init : List Str, init ≠ [] →
      joinSep sep (init ++ [a]) = joinSep sep init ++ sep ++ a := by
  intro init
  induction init with
  | nil => intro h; cases h rfl
  | cons x rest ih =>
    intro _
    cases rest with
    | nil => rfl
    | cons r rs =>
      have := ih (by simp)
      show x ++ sep ++ joinSep sep ((r :: rs) ++ [a]) = _
      rw [this]
      simp only [joinSep, List.append_assoc]

/-- Joining all parts but the last yields a prefix of the string. -/
theorem joinSep_dropLast_front (sep s : Str) :
    joinSep sep ((splitOnL sep s).dropLast) <+: s := by
  rcases List.eq_nil_or_concat (splitOnL sep s) with h | ⟨init, a, h⟩
  · exact absurd h (splitOnL_ne_nil _ _)
  · rw [List.concat_eq_append] at h
    rw [h, List.dropLast_concat]
    cases hi : init with
    | nil =>
      simp [joinSep]
    | cons y ys =>
      have hne : init ≠ [] := by simp [hi]
      have hj := joinSep_concat sep a init hne
      have hs := @joinSep_splitOnL sep s
      rw [h, hj] at hs
      rw [← hi] at *
      exact ⟨sep ++ a, by rw [← hs]; simp⟩

/-- C9 counterexample: the input starts with a valid title and contains no
space-bracket substring, yet the decoder succeeds — removing the private
legislation marker creates the bracketed token that the claim assumed
absent. -/
theorem c9_private_legislation_rescue :
    startsWith "Rep.".data
        "Rep. Smith, John (Private Legislation)[R-TX] (Introduced 01/02/2021)".data
      = true ∧
    containsSub " [".data
        "Rep. Smith, John (Private Legislation)[R-TX] (Introduced 01/02/2021)".data
      = false ∧
    parse_overview_sponsor
        "Rep. Smith, John (Private Legislation)[R-TX] (Introduced 01/02/2021)".data
      = .ok ⟨"Rep.".data, "R".data, "TX".data, none, "Smith".data,
            "John Smith".data⟩ := by
  refine ⟨by decide, by decide, by decide⟩

/-- C9 (amended): for inputs that start with a valid title, do not contain
the private-legislation marker, and lack either a space-parenthesis or a
space-bracket substring, the sponsor-variant decoder raises `IndexError`
from list indexing — a failure mode distinct from the documented
`ValueError` for malformed inputs. -/
theorem c9_sponsor_decoder_index_error :
    ∀ (s t : Str), getTitle s = .ok t →
      containsSub "(Private Legislation)".data s = false →
      (containsSub " (".data s = false ∨ containsSub " [".data s = false) →
      parse_overview_sponsor s = .error .indexError := by
  intro s t ht hpl hdisj
  have hstrip : pyStrip (pyLStripChars t s) <:+: s :=
    (pyStrip_within (pyLStripChars t s)).trans
      (List.dropWhile_suffix fun c => t.contains c).isInfix
  have hkey : containsSub " [".data
      (joinSep " (".data ((splitOnL " (".data (pyStrip (pyLStripChars t s))).dropLast))
      = false := by
    cases hdisj with
    | inl hnp =>
      have h2 : containsSub " (".data (pyStrip (pyLStripChars t s)) = false :=
        not_containsSub_mono hnp hstrip
      rw [splitOnL_single h2]
      simp [joinSep, containsSub, List.isPrefixOf]
    | inr hnb =>
      have h2 : containsSub " [".data (pyStrip (pyLStripChars t s)) = false :=
        not_containsSub_mono hnb hstrip
      exact not_containsSub_mono h2
        (joinSep_dropLast_front " (".data (pyStrip (pyLStripChars t s))).isInfix
  rw [parse_overview_sponsor, sponsorPrep, ht, exceptBind_ok, hpl]
  rw [if_neg (by simp : ¬ false = true)]
  simp only [exceptPure, exceptBind_ok]
  rw [posOfPrepped, splitOnL_single hkey]
  rfl

/-- C9 witness: the amended statement applied to a concrete title-prefixed
string holding neither a parenthetical nor a bracketed token. -/
theorem c9_sponsor_decoder_index_error_witness :
    parse_overview_sponsor "Rep. Smith, John".data = .error .indexError :=
  c9_sponsor_decoder_index_error "Rep. Smith, John".data "Rep.".data
    (by decide) (by decide) (Or.inl (by decide))

/-- Replacement leaves a string without occurrences unchanged. -/
theorem replaceAll_not_contains {pat : Str} (r : Str) :
    ∀ {s : Str}, containsSub pat s = false → replaceAll pat r s = s := by
  intro s
  induction s with
  | nil => intro _; rfl
  | cons c cs ih =>
    intro h
    simp only [containsSub, Bool.or_eq_false_iff] at h
    rw [replaceAll_cons, if_neg (by simp [h.1]), ih h.2]

/-- Replacement of a leading occurrence. -/
theorem replaceAll_prefix_start {pat : Str} (hne : pat ≠ []) (r rest : Str) :
    replaceAll pat r (pat ++ rest) = r ++ replaceAll pat r rest := by
  match pat, hne with
  | p :: ps, _ =>
    rw [show (p :: ps) ++ rest = p :: (ps ++ rest) from rfl, replaceAll_cons]
    rw [if_pos ⟨by simp, List.isPrefixOf_iff_prefix.mpr (List.prefix_append _ _)⟩]
    rw [show p :: (ps ++ rest) = (p :: ps) ++ rest from rfl, List.drop_left]

/-- Replacement of a final occurrence. -/
theorem replaceAll_append_end {pat : Str} (hne : pat ≠ []) (r : Str) :
    ∀ s : Str, containsSub pat (s ++ pat.dropLast) = false →
      replaceAll pat r (s ++ pat) = s ++ r := by
  intro s
  induction s with
  | nil =>
    intro _
    simp only [List.nil_append]
    match pat, hne with
    | p :: ps, _ =>
      rw [replaceAll_cons,
        if_pos ⟨by simp, List.isPrefixOf_iff_prefix.mpr List.prefix_rfl⟩,
        List.drop_length]
      simp [replaceAll, replaceAllF]
  | cons c cs ih =>
    intro h
    have hcc : (c :: cs) ++ pat.dropLast = c :: (cs ++ pat.dropLast) := rfl
    have hnotpre : ¬ ((pat : Str) ≠ [] ∧ pat.isPrefixOf (c :: (cs ++ pat))) := by
      rintro ⟨_, hpre⟩
      have hpre2 : pat <+: (c :: cs) ++ pat :=
        List.isPrefixOf_iff_prefix.mp hpre
      have hlen : pat.length ≤ ((c :: cs) ++ pat.dropLast).length := by
        have h1 := List.length_pos.mpr hne
        simp only [List.length_append, List.length_cons, List.length_dropLast]
        omega
      have hpre3 : (c :: cs) ++ pat.dropLast <+: (c :: cs) ++ pat := by
        refine ⟨[pat.getLast hne], ?_⟩
        rw [List.append_assoc, List.dropLast_append_getLast hne]
      have hp : pat <+: (c :: cs) ++ pat.dropLast :=
        List.prefix_of_prefix_length_le hpre2 hpre3 hlen
      obtain ⟨t2, ht2⟩ := hp
      have hcon : containsSub pat ((c :: cs) ++ pat.dropLast) = true :=
        (containsSub_iff _ _).mpr ⟨[], t2, by simp [← ht2]⟩
      rw [hcon] at h
      cases h
    rw [show (c :: cs) ++ pat = c :: (cs ++ pat) from rfl, replaceAll_cons,
      if_neg hnotpre]
    have h2 : containsSub pat (cs ++ pat.dropLast) = false := by
      rw [hcc] at h
      simp only [containsSub, Bool.or_eq_false_iff] at h
      exact h.2
    rw [ih h2]
    rfl


theorem actionsRow2_marker (dstr core r : Str) (dt : DateT)
    (hd : parseDateTimeE (pyStrip dstr) = .ok dt)
    (hr : containsSub "Action By:".data r = false)
    (hm : pyStrip ("Action By:".data ++ r) = "Action By:".data ++ r)
    (hocc : containsSub ("Action By:".data ++ r)
        ((core ++ ['\n']) ++ ("Action By:".data ++ r).dropLast) = false)
    (hcell : pyStrip ((core ++ ['\n']) ++ ("Action By:".data ++ r)) =
        (core ++ ['\n']) ++ ("Action By:".data ++ r))
    (hcore : pyStrip (core ++ ['\n']) = core) :
    actionsRow2 ["date".data, "action".data]
        (markerRow dstr core ("Action By:".data ++ r)) =
      .ok ⟨dt, some (pyStrip r), core, []⟩ := by
  have hby : pyStrip (replaceAll "Action By:".data []
      (pyStrip ("Action By:".data ++ r))) = pyStrip r := by
    rw [hm, replaceAll_prefix_start (by decide), replaceAll_not_contains _ hr]
    rfl
  have hcl : cellText [INode.text (core ++ ['\n']), INode.br,
      INode.span ("Action By:".data ++ r)] =
      (core ++ ['\n']) ++ ("Action By:".data ++ r) := by
    simp [cellText, inodeText]
  have hact : pyStrip (replaceAll (pyStrip ("Action By:".data ++ r)) []
      (pyStrip (cellText [INode.text (core ++ ['\n']), INode.br,
        INode.span ("Action By:".data ++ r)]))) = core := by
    rw [hcl, hm, hcell, replaceAll_append_end (by simp) [] _ hocc]
    rw [List.append_nil]
    exact hcore
  rw [actionsRow2]
  simp +decide [markerRow, dictOfZip, dictSet, dictGet, firstSpan, exceptBind_ok,
    cellText, inodeText, linksOfCell, cellAnchors, startsWith, hd,
    List.isPrefixOf_iff_prefix, List.prefix_append]
  rw [show pyStrip ('A' :: 'c' :: 't' :: 'i' :: 'o' :: 'n' :: ' ' :: 'B' :: 'y' :: ':' :: r) = 'A' :: 'c' :: 't' :: 'i' :: 'o' :: 'n' :: ' ' :: 'B' :: 'y' :: ':' :: r from hm]
  rw [if_neg (List.cons_ne_nil _ _)]
  rw [if_pos]
  case hc => exact ⟨r, rfl⟩
  have hby2 := hby
  rw [hm] at hby2
  have hact2 := hact
  rw [hcl, hm, List.append_assoc, List.singleton_append] at hact2
  rw [show pyStrip (replaceAll ['A', 'c', 't', 'i', 'o', 'n', ' ', 'B', 'y', ':'] [] ('A' :: 'c' :: 't' :: 'i' :: 'o' :: 'n' :: ' ' :: 'B' :: 'y' :: ':' :: r)) = pyStrip r from hby2]
  rw [show pyStrip (replaceAll ('A' :: 'c' :: 't' :: 'i' :: 'o' :: 'n' :: ' ' :: 'B' :: 'y' :: ':' :: r) [] (pyStrip (core ++ '\n' :: 'A' :: 'c' :: 't' :: 'i' :: 'o' :: 'n' :: ' ' :: 'B' :: 'y' :: ':' :: r))) = core from hact2]
  rfl


theorem mapM_error_mem {α β : Type} {f : α → Except PyErr β} {x : α}
    (hx : ∃ e, f x = .error e) :
    ∀ (l₁ l₂ : List α), ∃ e, (l₁ ++ x :: l₂).mapM f = .error e := by
  intro l₁
  induction l₁ with
  | nil =>
    intro l₂
    obtain ⟨e, he⟩ := hx
    refine ⟨e, ?_⟩
    rw [List.nil_append, List.mapM_cons, he]
    rfl
  | cons y l₁ ih =>
    intro l₂
    rw [List.cons_append, List.mapM_cons]
    cases hy : f y with
    | error e => exact ⟨e, rfl⟩
    | ok b =>
      obtain ⟨e, he⟩ := ih l₂
      refine ⟨e, ?_⟩
      rw [exceptBind_ok, he]
      rfl


/-- Evaluation of `parse_actions` on the two-column shape: the result is the
row-wise decode stored under the actions key. -/
theorem parse_actions_twoCol (bill : Bill) (rows : List Row) :
    parse_actions bill (twoColDoc rows) =
      (rows.mapM (actionsRow2 ["date".data, "action".data])) >>=
        (fun acts => .ok { bill with actions := some acts }) := rfl

/-- C3: the inline `Action By:` marker of the two-column actions shape
(bill.py lines 516-546).  First conjunct: in any two-column actions table,
a row whose action cell holds a span stripping to non-empty text that does
not start with `Action By:` makes the whole extractor raise.  Second
conjunct: for a generic marker row — action text, a line break, then the
span `Action By:` followed by the actor — the parsed `by` field is the
marker text after the prefix (trimmed) and the parsed `action` field is
the cell text with the whole marker and its preceding line break removed
(the hypotheses pin the generic shape: the marker text is trimmed, the
prefix does not recur in the actor text, the marker occurs in the cell
text only at its end, and the body text is trimmed). -/
theorem c3_action_by_marker :
    (∀ (bill : Bill) (pre post : List Row) (dcell acell : Cell)
       (cls : Option (List Str)) (m : Str),
      firstSpan acell = some m → pyStrip m ≠ [] →
      startsWith "Action By:".data (pyStrip m) = false →
      ∃ e, parse_actions bill
        (twoColDoc (pre ++ ⟨none, [dcell, acell], cls⟩ :: post)) = .error e) ∧
    (∀ (bill : Bill) (dstr core r : Str) (dt : DateT),
      parseDateTimeE (pyStrip dstr) = .ok dt →
      containsSub "Action By:".data r = false →
      pyStrip ("Action By:".data ++ r) = "Action By:".data ++ r →
      containsSub ("Action By:".data ++ r)
        ((core ++ ['\n']) ++ ("Action By:".data ++ r).dropLast) = false →
      pyStrip ((core ++ ['\n']) ++ ("Action By:".data ++ r)) =
        (core ++ ['\n']) ++ ("Action By:".data ++ r) →
      pyStrip (core ++ ['\n']) = core →
      parse_actions bill
          (twoColDoc [markerRow dstr core ("Action By:".data ++ r)]) =
        .ok { bill with actions := some [⟨dt, some (pyStrip r), core, []⟩] }) := by
  constructor
  · intro bill pre post dcell acell cls m hspan hne hpref
    have hrow : ∃ e, actionsRow2 ["date".data, "action".data]
        ⟨none, [dcell, acell], cls⟩ = .error e := by
      refine ⟨.valueError "Invalid by column", ?_⟩
      rw [actionsRow2]
      dsimp only [dictOfZip, dictSet, dictGet]
      rw [if_neg (by decide), if_pos (by decide), exceptBind_ok, hspan]
      dsimp only
      rw [if_neg hne, if_neg (by simp [hpref])]
      rfl
    obtain ⟨e, he⟩ := mapM_error_mem hrow pre post
    exact ⟨e, by rw [parse_actions_twoCol, he]; rfl⟩
  · intro bill dstr core r dt hd hr hm hocc hcell hcore
    have h1 := actionsRow2_marker dstr core r dt hd hr hm hocc hcell hcore
    rw [parse_actions_twoCol, List.mapM_cons, h1, exceptBind_ok]
    rfl

theorem c3_action_by_marker_witness :
    (∃ e, parse_actions bill0
      (twoColDoc [⟨none, [textCell "01/02/2021", [INode.span "Senate".data]],
        none⟩]) = .error e) ∧
    parse_actions bill0
        (twoColDoc [markerRow "01/02/2021".data "Introduced".data
          ("Action By:".data ++ " House".data)]) =
      .ok { bill0 with actions := some [⟨⟨2021, 1, 2, 0, 0⟩, some "House".data, "Introduced".data, []⟩] } :=
  ⟨c3_action_by_marker.1 bill0 [] [] (textCell "01/02/2021")
      [INode.span "Senate".data] none "Senate".data rfl (by decide) (by decide),
    c3_action_by_marker.2 bill0 "01/02/2021".data "Introduced".data
      " House".data ⟨2021, 1, 2, 0, 0⟩ (by decide) (by decide) (by decide)
      (by decide) (by decide) (by decide)⟩

/-- Evaluation of `parse_committees` on the standard header: the result is
the threaded row loop stored under the committees key. -/
theorem parse_committees_eval (bill : Bill) (rows : List Row) :
    parse_committees bill (commDoc rows) =
      (commRows ["name".data, "date".data, "activity".data,
          "related documents".data] (none, false) rows) >>=
        (fun cs => .ok { bill with committees := some cs }) := rfl

/-- The name slot of the committees row dict always holds the carried
header cell, whatever the row cells are. -/
theorem dictGet_commName (v0 : Option Cell) (vs : List (Option Cell)) :
    dictGet (dictOfZip ["name".data, "date".data, "activity".data,
      "related documents".data] (v0 :: vs)) "name".data = .ok v0 := by
  match vs with
  | [] => rfl
  | [a] => rfl
  | [a, b] => rfl
  | a :: b :: c :: t => rfl

/-- A row without its own header cell leaves the carried state unchanged. -/
theorem stepCommState_none (st : Option Cell × Bool) (r : Row)
    (h : r.th = none) : stepCommState st r = .ok st := by
  unfold stepCommState
  rw [h]

/-- A row with a header cell and a class list replaces the carried state. -/
theorem stepCommState_some (st : Option Cell × Bool) (r : Row) (thCell : Cell)
    (cls : List Str) (h : r.th = some thCell) (hc : r.classes = some cls) :
    stepCommState st r = .ok (some thCell, cls.contains "subcommittee".data) := by
  unfold stepCommState
  rw [h, hc]

theorem commRows_cons_ok {keys : List Str} {st : Option Cell × Bool} {x : Row}
    {rest : List Row} {cs : List Committee}
    (h : commRows keys st (x :: rest) = .ok cs) :
    ∃ st2 y ys, stepCommState st x = .ok st2 ∧
      mkCommitteeEntry keys st2 x = .ok y ∧
      commRows keys st2 rest = .ok ys ∧ cs = y :: ys := by
  simp only [commRows] at h
  obtain ⟨st2, h1, h2⟩ := bind_ok h
  obtain ⟨y, h3, h4⟩ := bind_ok h2
  obtain ⟨ys, h5, h6⟩ := bind_ok h4
  cases h6
  exact ⟨st2, y, ys, h1, h3, h5, rfl⟩

/-- Skipping header-less rows: the entry emitted for the first header-less
row after the skipped block is built from the unchanged carried state. -/
theorem commRows_skip {keys : List Str} {st : Option Cell × Bool} :
    ∀ (mid : List Row), (∀ x ∈ mid, x.th = none) →
    ∀ {r2 : Row} {rest : List Row} {cs : List Committee}, r2.th = none →
    commRows keys st (mid ++ r2 :: rest) = .ok cs →
    ∃ y, mkCommitteeEntry keys st r2 = .ok y ∧ cs.get? mid.length = some y := by
  intro mid
  induction mid with
  | nil =>
    intro _ r2 rest cs h2 hok
    rw [List.nil_append] at hok
    obtain ⟨st2, y, ys, h1, h3, h5, rfl⟩ := commRows_cons_ok hok
    rw [stepCommState_none _ _ h2] at h1
    cases h1
    exact ⟨y, h3, rfl⟩
  | cons x xs ih =>
    intro hall r2 rest cs h2 hok
    rw [List.cons_append] at hok
    obtain ⟨st2, y, ys, h1, h3, h5, rfl⟩ := commRows_cons_ok hok
    rw [stepCommState_none _ _ (hall x (by simp))] at h1
    cases h1
    obtain ⟨y2, hy2, hget⟩ := ih (fun z hz => hall z (by simp [hz])) h2 h5
    exact ⟨y2, hy2, by simpa using hget⟩

/-- Entries of a suffix of the row list sit at the shifted indices of the
full output. -/
theorem commRows_prefix {keys : List Str} {tail : List Row} :
    ∀ (pre : List Row) (st : Option Cell × Bool) (cs : List Committee),
    commRows keys st (pre ++ tail) = .ok cs →
    ∃ st1 cs1, commRows keys st1 tail = .ok cs1 ∧
      ∀ i, cs1.get? i = cs.get? (pre.length + i) := by
  intro pre
  induction pre with
  | nil =>
    intro st cs hok
    exact ⟨st, cs, hok, fun i => by simp⟩
  | cons x xs ih =>
    intro st cs hok
    rw [List.cons_append] at hok
    obtain ⟨st2, y, ys, h1, h3, h5, rfl⟩ := commRows_cons_ok hok
    obtain ⟨st1, cs1, hok1, hidx⟩ := ih st2 ys h5
    refine ⟨st1, cs1, hok1, fun i => ?_⟩
    rw [hidx i]
    have : (x :: xs).length + i = (xs.length + i) + 1 := by
      simp [List.length_cons]; omega
    rw [this]
    rfl

/-- Field extraction of a committees entry built from a carried header
cell: the name is the stripped header text and the subcommittee flag is
the carried flag. -/
theorem mkCommitteeEntry_fields {thCell : Cell} {flag : Bool} {row : Row}
    {y : Committee}
    (h : mkCommitteeEntry ["name".data, "date".data, "activity".data,
      "related documents".data] (some thCell, flag) row = .ok y) :
    y.name = pyStrip (cellText thCell) ∧ y.is_subcommittee = flag := by
  rw [mkCommitteeEntry] at h
  rw [show ((some thCell, flag) : Option Cell × Bool).1 = some thCell from rfl] at h
  rw [dictGet_commName] at h
  rw [exceptBind_ok] at h
  dsimp only at h
  rw [exceptBind_ok] at h
  obtain ⟨dateC, hd1, h⟩ := bind_ok h
  cases dateC with
  | none => rw [exceptBind_err] at h; cases h
  | some dc =>
    dsimp only at h
    rw [exceptBind_ok] at h
    obtain ⟨actC, ha1, h⟩ := bind_ok h
    cases actC with
    | none => rw [exceptBind_err] at h; cases h
    | some ac =>
      dsimp only at h
      rw [exceptBind_ok] at h
      obtain ⟨relC, hr1, h⟩ := bind_ok h
      cases relC with
      | none => rw [exceptBind_err] at h; cases h
      | some rc =>
        dsimp only at h
        rw [exceptBind_ok] at h
        obtain ⟨links, hl1, h⟩ := bind_ok h
        cases h
        exact ⟨rfl, rfl⟩

/-- C7: committee carry-forward (bill.py lines 763-784).  In a committees
table, for a row with a header cell followed by any block of header-less
rows, the entry emitted for a later header-less row has the same name (the
stripped header-cell text) and the same subcommittee flag (presence of the
`subcommittee` class) as the entry of that header row: the accumulator is
updated exactly on rows with a header cell and read unchanged otherwise. -/
theorem c7_committee_carry_forward
    (bill bill2 : Bill) (pre mid post : List Row) (r r2 : Row)
    (thCell : Cell) (cls : List Str)
    (hth : r.th = some thCell) (hcls : r.classes = some cls)
    (hmid : ∀ x ∈ mid, x.th = none) (h2 : r2.th = none)
    (hok : parse_committees bill
      (commDoc (pre ++ (r :: (mid ++ r2 :: post)))) = .ok bill2) :
    ∃ cs y y2, bill2.committees = some cs ∧
      cs.get? pre.length = some y ∧
      cs.get? (pre.length + (mid.length + 1)) = some y2 ∧
      y.name = pyStrip (cellText thCell) ∧
      y.is_subcommittee = cls.contains "subcommittee".data ∧
      y2.name = y.name ∧ y2.is_subcommittee = y.is_subcommittee := by
  rw [parse_committees_eval] at hok
  obtain ⟨cs, hcs, hb2⟩ := bind_ok hok
  cases hb2
  obtain ⟨st1, cs1, hok1, hidx⟩ := commRows_prefix pre _ _ hcs
  obtain ⟨st2, y, ys, hstep, hmk, hrest, rfl⟩ := commRows_cons_ok hok1
  rw [stepCommState_some _ _ _ _ hth hcls] at hstep
  cases hstep
  obtain ⟨y2, hmk2, hget2⟩ := commRows_skip mid hmid h2 hrest
  obtain ⟨hn1, hf1⟩ := mkCommitteeEntry_fields hmk
  obtain ⟨hn2, hf2⟩ := mkCommitteeEntry_fields hmk2
  refine ⟨cs, y, y2, rfl, ?_, ?_, hn1, hf1,
    hn2.trans hn1.symm, hf2.trans hf1.symm⟩
  · have h0 := hidx 0
    rw [Nat.add_zero] at h0
    rw [← h0]
    rfl
  · have hi := hidx (mid.length + 1)
    rw [← hi]
    simpa using hget2

theorem c7_committee_carry_forward_witness :
    ∃ cs y y2,
      ({ bill0 with committees := some commOut } : Bill).committees = some cs ∧
      cs.get? 0 = some y ∧ cs.get? 2 = some y2 ∧
      y.name = pyStrip (cellText (textCell "Judiciary")) ∧
      y.is_subcommittee = ([] : List Str).contains "subcommittee".data ∧
      y2.name = y.name ∧ y2.is_subcommittee = y.is_subcommittee :=
  c7_committee_carry_forward bill0 _ []
    [Row.mk none [textCell "01/03/2021", textCell "Hearings", textCell "x"] none]
    [] (Row.mk (some (textCell "Judiciary"))
      [textCell "01/02/2021", textCell "Referred", textCell "x"] (some []))
    (Row.mk none [textCell "01/04/2021", textCell "Markup", textCell "x"] none)
    (textCell "Judiciary") [] rfl rfl (by decide) rfl (by decide)

/-- Dropping leading characters is the identity when the head survives. -/
theorem dropWhile_noop {p : Char → Bool} {s : Str} {c : Char}
    (h : s.head? = some c) (hc : p c = false) : s.dropWhile p = s := by
  cases s with
  | nil => cases h
  | cons d t =>
    cases h
    rw [List.dropWhile_cons, hc]
    rfl

/-- Dropping trailing characters is the identity when the last one
survives. -/
theorem dropTrailing_noop {p : Char → Bool} {s : Str} {c : Char}
    (h : s.getLast? = some c) (hc : p c = false) : dropTrailing p s = s := by
  obtain ⟨s', rfl⟩ := List.getLast?_eq_some_iff.mp h
  rw [dropTrailing, List.reverse_append, List.reverse_singleton,
    List.singleton_append, List.dropWhile_cons, hc]
  simp

/-- Right-stripping a character set is the identity when the last
character is outside the set. -/
theorem pyRStripChars_noop {set : Str} {s : Str} {c : Char}
    (h : s.getLast? = some c) (hc : set.contains c = false) :
    pyRStripChars set s = s :=
  dropTrailing_noop h hc

/-- Left-stripping a character set is the identity when the head is
outside the set. -/
theorem pyLStripChars_noop {set : Str} {s : Str} {c : Char}
    (h : s.head? = some c) (hc : set.contains c = false) :
    pyLStripChars set s = s :=
  dropWhile_noop h hc

/-- Right-stripping removes an all-in-set suffix when the preceding
character is outside the set. -/
theorem pyRStripChars_append {set : Str} {s suf : Str} {c : Char}
    (hsuf : ∀ x ∈ suf, set.contains x = true)
    (h : s.getLast? = some c) (hc : set.contains c = false) :
    pyRStripChars set (s ++ suf) = s := by
  rw [pyRStripChars, dropTrailing, List.reverse_append, List.dropWhile_append]
  have hdrop : suf.reverse.dropWhile (fun x => set.contains x) = [] := by
    rw [List.dropWhile_eq_nil_iff]
    intro x hx
    exact hsuf x (List.mem_reverse.mp hx)
  rw [hdrop]
  simp only [List.isEmpty_nil, if_true]
  have := dropTrailing_noop h hc
  rw [dropTrailing] at this
  rw [show s.reverse.dropWhile (fun x => set.contains x) = s.reverse from ?_]
  · exact List.reverse_reverse s
  · have h2 := congrArg List.reverse this
    rw [List.reverse_reverse] at h2
    exact h2

/-- The head surviving a leading drop fails the predicate. -/
theorem dropWhile_head_false {p : Char → Bool} {s : Str} {c : Char}
    (h : (s.dropWhile p).head? = some c) : p c = false := by
  induction s with
  | nil => cases h
  | cons d t ih =>
    rw [List.dropWhile_cons] at h
    by_cases hd : p d
    · rw [if_pos hd] at h
      exact ih h
    · rw [if_neg hd] at h
      cases h
      exact Bool.not_eq_true _ ▸ (by simpa using hd)

/-- The last character surviving a trailing drop fails the predicate. -/
theorem dropTrailing_last_false {p : Char → Bool} {s : Str} {c : Char}
    (h : (dropTrailing p s).getLast? = some c) : p c = false := by
  rw [dropTrailing, List.getLast?_reverse] at h
  exact dropWhile_head_false h

/-- A non-empty strip-invariant string neither starts nor ends in
whitespace. -/
theorem pyStrip_fixed_ends {v : Str}
    (hv : pyStrip v = v) (hne : v ≠ []) :
    (∀ c, v.head? = some c → pyIsSpace c = false) ∧
    (∀ c, v.getLast? = some c → pyIsSpace c = false) := by
  constructor
  · intro c hc
    have h1 : (dropTrailing pyIsSpace (v.dropWhile pyIsSpace)) = v := hv
    have hpre := dropTrailing_front pyIsSpace (v.dropWhile pyIsSpace)
    rw [h1] at hpre
    obtain ⟨t, ht⟩ := hpre
    have hhead : (v.dropWhile pyIsSpace).head? = some c := by
      rw [← ht]
      cases v with
      | nil => cases hc
      | cons d s => cases hc; rfl
    exact dropWhile_head_false hhead
  · intro c hc
    have h1 : (dropTrailing pyIsSpace (v.dropWhile pyIsSpace)) = v := hv
    rw [← h1] at hc
    exact dropTrailing_last_false hc

/-- Occurrence-freeness of a two-character pattern in a concatenation,
from occurrence-freeness of the parts and a boundary condition. -/
theorem containsSub2_append {x y : Char} {b : Str} :
    ∀ {a : Str}, containsSub [x, y] a = false → containsSub [x, y] b = false →
    (∀ c, a.getLast? = some c → c = x → b.head? = some y → False) →
    containsSub [x, y] (a ++ b) = false := by
  intro a
  induction a with
  | nil => intro _ hb _; exact hb
  | cons c cs ih =>
    intro ha hb hbd
    rw [List.cons_append]
    have ha' : containsSub [x, y] cs = false := by
      rw [show containsSub [x, y] (c :: cs) =
        ((List.isPrefixOf [x, y] (c :: cs)) || containsSub [x, y] cs) from rfl,
        Bool.or_eq_false_iff] at ha
      exact ha.2
    have hnp : List.isPrefixOf [x, y] (c :: (cs ++ b)) = false := by
      cases hcs : cs with
      | nil =>
        by_contra hcon
        rw [Bool.not_eq_false] at hcon
        obtain ⟨t, ht⟩ := List.isPrefixOf_iff_prefix.mp hcon
        rw [show ([x, y] : Str) ++ t = x :: y :: t from rfl] at ht
        injection ht with h1 h2
        subst hcs
        rw [List.nil_append] at h2
        apply hbd c (by rfl) h1.symm
        cases b with
        | nil => cases h2
        | cons b0 bt =>
          injection h2 with h3 _
          rw [h3]
          rfl
      | cons c1 ct =>
        by_contra hcon
        rw [Bool.not_eq_false] at hcon
        obtain ⟨t, ht⟩ := List.isPrefixOf_iff_prefix.mp hcon
        rw [show ([x, y] : Str) ++ t = x :: y :: t from rfl] at ht
        injection ht with h1 h2
        subst hcs
        rw [List.cons_append] at h2
        injection h2 with h3 _
        have : List.isPrefixOf [x, y] (c :: c1 :: ct) = true := by
          rw [h1, h3]
          simp [List.isPrefixOf_iff_prefix]
        rw [show containsSub [x, y] (c :: c1 :: ct) =
          ((List.isPrefixOf [x, y] (c :: c1 :: ct)) ||
            containsSub [x, y] (c1 :: ct)) from rfl, this] at ha
        cases ha
    have hih : containsSub [x, y] (cs ++ b) = false := by
      refine ih ha' hb ?_
      intro d hd hdx hby
      cases hcs : cs with
      | nil => subst hcs; cases hd
      | cons c1 ct =>
        apply hbd d ?_ hdx hby
        subst hcs
        rw [List.getLast?_cons_cons]
        exact hd
    rw [show containsSub [x, y] (c :: (cs ++ b)) =
      ((List.isPrefixOf [x, y] (c :: (cs ++ b))) ||
        containsSub [x, y] (cs ++ b)) from rfl, hnp, hih]
    rfl


/-- A single-character split never returns the empty list of parts. -/
theorem splitOnChar_ne_nil (c : Char) (s : Str) : splitOnChar c s ≠ [] := by
  induction s with
  | nil => simp [splitOnChar]
  | cons x xs ih =>
    rw [splitOnChar]
    by_cases hx : x = c
    · rw [if_pos hx]; simp
    · rw [if_neg hx]
      match hsp : splitOnChar c xs with
      | y :: ys => simp
      | [] => exact absurd hsp ih

/-- A string free of the separator character is a single part. -/
theorem splitOnChar_single {c : Char} {s : Str} (h : s.contains c = false) :
    splitOnChar c s = [s] := by
  induction s with
  | nil => rfl
  | cons x xs ih =>
    rw [List.contains_cons, Bool.or_eq_false_iff] at h
    rw [splitOnChar, if_neg (fun hxc => (by simpa using h.1 : ¬c = x) hxc.symm), ih h.2]

/-- Splitting at an explicit separator occurrence after a separator-free
part. -/
theorem splitOnChar_append {c : Char} {b : Str} :
    ∀ {a : Str}, a.contains c = false →
      splitOnChar c (a ++ c :: b) = a :: splitOnChar c b := by
  intro a
  induction a with
  | nil =>
    intro _
    rw [List.nil_append, splitOnChar, if_pos rfl]
  | cons x xs ih =>
    intro h
    rw [List.contains_cons, Bool.or_eq_false_iff] at h
    rw [List.cons_append, splitOnChar, if_neg (fun hxc => (by simpa using h.1 : ¬c = x) hxc.symm), ih h.2]

/-- Splitting the separator-joined lines recovers the lines. -/
theorem splitOnChar_joinSep {c : Char} :
    ∀ {lines : List Str}, lines ≠ [] →
      (∀ l ∈ lines, l.contains c = false) →
      splitOnChar c (joinSep [c] lines) = lines := by
  intro lines
  induction lines with
  | nil => intro h; cases h rfl
  | cons x xs ih =>
    intro _ hall
    cases xs with
    | nil => exact splitOnChar_single (hall x (by simp))
    | cons y ys =>
      rw [joinSep, List.append_assoc, List.singleton_append]
      rw [splitOnChar_append (hall x (by simp))]
      rw [ih (by simp) (fun l hl => hall l (by simp [hl]))]

/-- Splitting on a substring at an explicit separator occurrence: the guard
rules out any earlier occurrence, including one straddling into the
separator. -/
theorem splitOnL_append_sep {sep : Str} (hne : sep ≠ []) :
    ∀ (a b : Str), containsSub sep (a ++ sep.dropLast) = false →
      splitOnL sep (a ++ sep ++ b) = a :: splitOnL sep b := by
  intro a
  induction a with
  | nil =>
    intro b _
    rw [List.nil_append]
    match hsep : sep, hne with
    | p :: ps, _ =>
      rw [List.cons_append, splitOnL_cons,
        if_pos ⟨by simp, List.isPrefixOf_iff_prefix.mpr
          (by rw [← List.cons_append]; exact List.prefix_append _ _)⟩]
      rw [← List.cons_append, List.drop_left' (by simp)]
  | cons x xs ih =>
    intro b h
    have hcc : (x :: xs) ++ sep.dropLast = x :: (xs ++ sep.dropLast) := rfl
    have hnotpre : ¬ ((sep : Str) ≠ [] ∧
        sep.isPrefixOf (x :: (xs ++ sep ++ b))) := by
      rintro ⟨_, hpre⟩
      have hpre2 : sep <+: ((x :: xs) ++ sep) ++ b := by
        have h0 := List.isPrefixOf_iff_prefix.mp hpre
        simpa [List.append_assoc] using h0
      have hpre2' : sep <+: (x :: xs) ++ sep :=
        List.prefix_of_prefix_length_le hpre2 (List.prefix_append _ _) (by simp; omega)
      have hlen : sep.length ≤ ((x :: xs) ++ sep.dropLast).length := by
        have h1 := List.length_pos.mpr hne
        simp only [List.length_append, List.length_cons, List.length_dropLast]
        omega
      have hpre3 : (x :: xs) ++ sep.dropLast <+: (x :: xs) ++ sep := by
        refine ⟨[sep.getLast hne], ?_⟩
        rw [List.append_assoc, List.dropLast_append_getLast hne]
      have hp : sep <+: (x :: xs) ++ sep.dropLast :=
        List.prefix_of_prefix_length_le hpre2' hpre3 hlen
      obtain ⟨t2, ht2⟩ := hp
      have hcon : containsSub sep ((x :: xs) ++ sep.dropLast) = true :=
        (containsSub_iff _ _).mpr ⟨[], t2, by simp [← ht2]⟩
      rw [hcon] at h
      cases h
    have h2 : containsSub sep (xs ++ sep.dropLast) = false := by
      rw [hcc] at h
      rw [show containsSub sep (x :: (xs ++ sep.dropLast)) =
        ((List.isPrefixOf sep (x :: (xs ++ sep.dropLast))) ||
          containsSub sep (xs ++ sep.dropLast)) from rfl,
        Bool.or_eq_false_iff] at h
      exact h.2
    rw [show (x :: xs) ++ sep ++ b = x :: (xs ++ sep ++ b) by simp]
    rw [splitOnL_cons, if_neg hnotpre, ih b h2]

/-- Inserting a fresh key appends it at the end of the dict. -/
theorem dictSet_fresh {α : Type} {k : Str} {v : α} :
    ∀ {d : List (Str × α)}, k ∉ d.map Prod.fst →
      dictSet d k v = d ++ [(k, v)] := by
  intro d
  induction d with
  | nil => intro _; rfl
  | cons p t ih =>
    intro h
    rw [List.map_cons, List.mem_cons] at h
    push_neg at h
    rw [dictSet, if_neg (fun hc => h.1 (by rw [hc]))]
    rw [ih h.2]
    rfl

/-- Folding fresh distinct insertions appends the pairs in order. -/
theorem foldl_dictSet_fresh {α : Type} :
    ∀ (ps : List (Str × α)) (d : List (Str × α)),
      (∀ p ∈ ps, p.1 ∉ d.map Prod.fst) → (ps.map Prod.fst).Nodup →
      ps.foldl (fun d p => dictSet d p.1 p.2) d = d ++ ps := by
  intro ps
  induction ps with
  | nil => intro d _ _; simp
  | cons p t ih =>
    intro d hfresh hnd
    rw [List.foldl_cons, dictSet_fresh (hfresh p (by simp))]
    rw [List.map_cons, List.nodup_cons] at hnd
    rw [ih (d ++ [(p.1, p.2)]) ?_ hnd.2]
    · simp
    · intro q hq
      rw [List.map_append, List.mem_append]
      push_neg
      refine ⟨hfresh q (by simp [hq]), ?_⟩
      simp only [List.map_cons, List.map_nil, List.mem_singleton]
      intro hc
      exact hnd.1 (hc ▸ (List.mem_map_of_mem Prod.fst hq))









/-- Containment fails in a concatenation when it fails in both parts. -/
theorem contains_append_false {c : Char} {b : Str} :
    ∀ {a : Str}, a.contains c = false → b.contains c = false →
      (a ++ b).contains c = false := by
  intro a
  induction a with
  | nil => intro _ hb; exact hb
  | cons x xs ih =>
    intro ha hb
    rw [List.contains_cons, Bool.or_eq_false_iff] at ha
    rw [List.cons_append, List.contains_cons, Bool.or_eq_false_iff]
    exact ⟨ha.1, ih ha.2 hb⟩

/-- Trailing `] ` decoration is trimmed back to the bracket. -/
theorem dropTrailing_bracket_space (w : Str) :
    dropTrailing pyIsSpace (w ++ (']' :: [' '])) = w ++ [']'] := by
  rw [dropTrailing, List.reverse_append]
  rw [show ((']' :: [' ']) : Str).reverse = ' ' :: [']'] from rfl]
  rw [List.cons_append, List.dropWhile_cons, if_pos (by decide)]
  rw [List.singleton_append, List.dropWhile_cons, if_neg (by decide)]
  rw [show ((']' :: w.reverse) : Str).reverse = w ++ [']'] from by simp]

/-- Stripping the bracket decoration of a well-behaved key recovers it. -/
theorem stripChars_key {kc : Char} {ks : Str}
    (hhead : headNotIn "[] ".data (kc :: ks) = true)
    (hlast : lastNotIn "[] ".data (kc :: ks) = true) :
    pyStripChars "[] ".data ("[".data ++ (kc :: ks) ++ "]".data) = kc :: ks := by
  have hh : ("[] ".data.contains kc) = false := by
    rw [headNotIn] at hhead
    simpa using hhead
  have hdw : pyLStripChars "[] ".data ("[".data ++ (kc :: ks) ++ "]".data) =
      (kc :: ks) ++ [']'] := by
    rw [show ("[".data ++ (kc :: ks) ++ "]".data : Str) =
      '[' :: ((kc :: ks) ++ [']']) from by simp]
    rw [pyLStripChars, List.dropWhile_cons, if_pos (by decide)]
    exact dropWhile_noop (c := kc) (by simp) hh
  rw [pyStripChars, hdw]
  obtain ⟨c, hc⟩ : ∃ c, (kc :: ks).getLast? = some c := by
    cases hgl : (kc :: ks).getLast? with
    | none => exact absurd (List.getLast?_eq_none_iff.mp hgl) (by simp)
    | some c => exact ⟨c, rfl⟩
  have hlc : ("[] ".data.contains c) = false := by
    rw [lastNotIn, hc] at hlast
    simpa using hlast
  rw [pyRStripChars, dropTrailing, List.reverse_append]
  rw [show (([']'] : Str)).reverse = [']'] from rfl, List.singleton_append]
  rw [List.dropWhile_cons, if_pos (by decide)]
  rw [dropWhile_noop (c := c) (by rw [List.head?_reverse]; exact hc) hlc]
  simp

/-- A well-behaved value is untouched by the leading-space strip of the
separator's right part. -/
theorem pyStrip_space_cons {v : Str} (hv : pyStrip v = v) :
    pyStrip (' ' :: v) = v := by
  rw [pyStrip, List.dropWhile_cons, if_pos (by decide)]
  exact hv

/-- Splitting and stripping one serialized line recovers its pair. -/
theorem php_line_step (pre : Str) (kv : Str × Str) (d : List (Str × Str))
    (hpre : pre = [] ∨ pre = "    ".data)
    (hk : goodKey kv.1 = true) (hv : goodVal kv.2 = true) :
    (do
      let (key, value) ← unpack2 ((splitOnL "=>".data
        (pre ++ "[".data ++ kv.1 ++ "] => ".data ++ kv.2)).map pyStrip)
      pure (dictSet d (pyStripChars "[] ".data key) value) :
      Except PyErr (List (Str × Str))) = .ok (dictSet d kv.1 kv.2) := by
  obtain ⟨k, v⟩ := kv
  dsimp only at hk hv ⊢
  cases k with
  | nil => simp [goodKey] at hk
  | cons kc ks =>
    rw [goodKey, Bool.and_eq_true, Bool.and_eq_true, Bool.and_eq_true,
      Bool.and_eq_true] at hk
    obtain ⟨⟨⟨⟨_, hkhead⟩, hklast⟩, hknl⟩, hksep⟩ := hk
    rw [Bool.not_eq_true'] at hknl hksep
    rw [goodVal, Bool.and_eq_true, Bool.and_eq_true, Bool.and_eq_true] at hv
    obtain ⟨⟨⟨hvne, hvnl⟩, hvsep⟩, hvfix⟩ := hv
    rw [Bool.not_eq_true'] at hvne hvnl hvsep
    have hvfix' : pyStrip v = v := by
      have := hvfix
      rw [beq_iff_eq] at this
      exact this
    have hA1 : containsSub ['=', '>'] (pre ++ "[".data) = false := by
      rcases hpre with rfl | rfl <;> decide
    have hA1last : (pre ++ "[".data).getLast? = some '[' := by
      rcases hpre with rfl | rfl <;> decide
    have hA2 : containsSub ['=', '>'] ((pre ++ "[".data) ++ (kc :: ks)) = false := by
      refine containsSub2_append hA1 hksep ?_
      intro c hc hcx _
      rw [hA1last] at hc
      injection hc with h
      subst h
      exact absurd hcx (by decide)
    have hA3 : containsSub ['=', '>']
        (((pre ++ "[".data) ++ (kc :: ks)) ++ ("] ".data ++ ['='])) = false := by
      refine containsSub2_append hA2 (by decide) ?_
      intro c _ _ h3
      exact absurd h3 (by decide)
    have hguard : containsSub "=>".data
        ((pre ++ "[".data ++ (kc :: ks) ++ "] ".data) ++
          ("=>".data).dropLast) = false := by
      have h0 := hA3
      rw [show (((pre ++ "[".data) ++ (kc :: ks)) ++ ("] ".data ++ ['=']) : Str) =
        ((pre ++ "[".data ++ (kc :: ks) ++ "] ".data) ++
          ("=>".data).dropLast) from by simp] at h0
      exact h0
    have hsplit := @splitOnL_append_sep "=>".data (by decide)
      (pre ++ "[".data ++ (kc :: ks) ++ "] ".data) (' ' :: v) hguard
    have hbsingle : splitOnL "=>".data (' ' :: v) = [' ' :: v] := by
      refine splitOnL_single ?_
      rw [show containsSub "=>".data (' ' :: v) =
        (("=>".data.isPrefixOf (' ' :: v)) || containsSub "=>".data v) from rfl]
      rw [hvsep]
      rw [show ("=>".data.isPrefixOf (' ' :: v)) = false from rfl]
      rfl
    have hform : (pre ++ "[".data ++ (kc :: ks) ++ "] => ".data ++ v : Str) =
        ((pre ++ "[".data ++ (kc :: ks) ++ "] ".data) ++ "=>".data ++
          (' ' :: v)) := by simp
    rw [hform, hsplit, hbsingle]
    have hdw : (pre ++ "[".data ++ (kc :: ks) ++ "] ".data).dropWhile pyIsSpace =
        '[' :: ((kc :: ks) ++ "] ".data) := by
      rcases hpre with rfl | rfl <;>
        simp +decide [List.dropWhile_cons, List.append_assoc]
    have hstripa : pyStrip (pre ++ "[".data ++ (kc :: ks) ++ "] ".data) =
        "[".data ++ (kc :: ks) ++ "]".data := by
      rw [pyStrip, hdw]
      rw [show ('[' :: ((kc :: ks) ++ "] ".data) : Str) =
        ('[' :: (kc :: ks)) ++ (']' :: [' ']) from by simp]
      rw [dropTrailing_bracket_space]
      simp
    simp only [List.map_cons, List.map_nil]
    rw [hstripa, pyStrip_space_cons hvfix']
    rw [show (unpack2 ["[".data ++ (kc :: ks) ++ "]".data, v] :
      Except PyErr (Str × Str)) = .ok ("[".data ++ (kc :: ks) ++ "]".data, v)
      from rfl]
    rw [exceptBind_ok]
    rw [stripChars_key hkhead hklast]
    rfl

/-- The tail a joined head is glued to does not depend on the head. -/
theorem joinSep_cons_eq (sep : Str) (x : Str) (L : List Str) :
    ∃ T, joinSep sep (x :: L) = x ++ T ∧
      ∀ x', joinSep sep (x' :: L) = x' ++ T := by
  cases L with
  | nil => exact ⟨[], by simp [joinSep], fun x' => by simp [joinSep]⟩
  | cons y t =>
    exact ⟨sep ++ joinSep sep (y :: t), by simp [joinSep], fun x' => by
      simp [joinSep]⟩

/-- The last character of a separator-joined list is the last character of
its last line. -/
theorem joinSep_getLast {sep : Str} (hsep : sep ≠ []) :
    ∀ {lines : List Str} {x : Str} {c : Char},
      lines.getLast? = some x → x.getLast? = some c →
      (joinSep sep lines).getLast? = some c := by
  intro lines
  induction lines with
  | nil => intro x c h; cases h
  | cons x0 rest ih =>
    intro x c hl hc
    cases rest with
    | nil =>
      rw [show (x0 :: ([] : List Str)).getLast? = some x0 from rfl] at hl
      injection hl with h
      subst h
      exact hc
    | cons y t =>
      rw [List.getLast?_cons_cons] at hl
      have hJ := ih hl hc
      have hne : joinSep sep (y :: t) ≠ [] := by
        intro hnil
        rw [hnil] at hJ
        cases hJ
      rw [joinSep, List.append_assoc]
      rw [List.getLast?_append_of_ne_nil _ (by simp [hne])]
      rw [List.getLast?_append_of_ne_nil _ hne]
      exact hJ

/-- The leading envelope is stripped down to the first line's indent. -/
theorem lstrip_envelope (Z : Str) :
    pyLStripChars "Array\n(\n".data ("Array\n(\n".data ++ ' ' :: Z) =
      ' ' :: Z := by
  simp +decide [pyLStripChars, List.dropWhile_cons]

/-- Four spaces of indent are stripped down to the opening bracket. -/
theorem dropWhile_indent (W : Str) :
    List.dropWhile pyIsSpace ("    ".data ++ '[' :: W) = '[' :: W := by
  simp +decide [List.dropWhile_cons]

/-- A good key is newline-free. -/
theorem goodKey_no_nl {k : Str} (h : goodKey k = true) :
    k.contains '\n' = false := by
  rw [goodKey, Bool.and_eq_true, Bool.and_eq_true, Bool.and_eq_true,
    Bool.and_eq_true] at h
  rw [← Bool.not_eq_true']
  exact h.1.2

/-- A good value is newline-free. -/
theorem goodVal_no_nl {v : Str} (h : goodVal v = true) :
    v.contains '\n' = false := by
  rw [goodVal, Bool.and_eq_true, Bool.and_eq_true, Bool.and_eq_true] at h
  rw [← Bool.not_eq_true']
  exact h.1.1.2

/-- A good value is non-empty and strip-invariant. -/
theorem goodVal_fix {v : Str} (h : goodVal v = true) :
    v ≠ [] ∧ pyStrip v = v := by
  rw [goodVal, Bool.and_eq_true, Bool.and_eq_true, Bool.and_eq_true] at h
  refine ⟨?_, by have := h.2; rwa [beq_iff_eq] at this⟩
  have := h.1.1.1
  rw [Bool.not_eq_true'] at this
  simpa using this

/-- An indented serialized line is newline-free. -/
theorem phpLine_no_nl {kv : Str × Str} (hk : goodKey kv.1 = true)
    (hv : goodVal kv.2 = true) : (phpLine kv).contains '\n' = false := by
  rw [phpLine]
  exact contains_append_false (contains_append_false
    (contains_append_false (by decide) (goodKey_no_nl hk)) (by decide))
    (goodVal_no_nl hv)

/-- A bare serialized line is newline-free. -/
theorem phpLineBare_no_nl {kv : Str × Str} (hk : goodKey kv.1 = true)
    (hv : goodVal kv.2 = true) : (phpLineBare kv).contains '\n' = false := by
  rw [phpLineBare]
  exact contains_append_false (contains_append_false
    (contains_append_false (by decide) (goodKey_no_nl hk)) (by decide))
    (goodVal_no_nl hv)

/-- Stripping the serialized envelope leaves the joined lines, the first
one with its indent removed. -/
theorem php_strip_eval {kv0 : Str × Str} {rest : List (Str × Str)}
    (hgood : ∀ kv ∈ kv0 :: rest, goodKey kv.1 = true ∧ goodVal kv.2 = true)
    (hlast : ∀ k v, (kv0 :: rest).getLast? = some (k, v) →
      v.getLast? ≠ some ')') :
    pyStrip (pyStripChars "\n)".data (pyStripChars "Array\n(\n".data
      (phpSerialize (kv0 :: rest)))) =
    joinSep ['\n'] (phpLineBare kv0 :: rest.map phpLine) := by
  obtain ⟨p, hp⟩ : ∃ p, (kv0 :: rest).getLast? = some p :=
    ⟨_, List.getLast?_eq_getLast _ (by simp)⟩
  obtain ⟨hpk, hpv⟩ := hgood p (List.mem_of_mem_getLast? hp)
  obtain ⟨hvne, hvfix⟩ := goodVal_fix hpv
  obtain ⟨c, hc⟩ : ∃ c, p.2.getLast? = some c := by
    cases hgl : p.2.getLast? with
    | none => exact absurd (List.getLast?_eq_none_iff.mp hgl) hvne
    | some c => exact ⟨c, rfl⟩
  have hcpar : c ≠ ')' := fun hcp => hlast p.1 p.2 hp (by rw [hc, hcp])
  have hcsp : pyIsSpace c = false :=
    (pyStrip_fixed_ends hvfix hvne).2 c hc
  have hcnl : c ≠ '\n' := by
    intro hcn
    have hmem : c ∈ p.2 := List.mem_of_mem_getLast? hc
    rw [hcn] at hmem
    have h2 : p.2.contains '\n' = true := List.elem_iff.mpr hmem
    rw [goodVal_no_nl hpv] at h2
    cases h2
  obtain ⟨T, hT, hTall⟩ :=
    joinSep_cons_eq ['\n'] (phpLine kv0) (rest.map phpLine)
  have hJdef : joinSep ['\n'] ((kv0 :: rest).map phpLine) =
      phpLine kv0 ++ T := by
    rw [List.map_cons]
    exact hT
  have hJlast : (joinSep ['\n'] ((kv0 :: rest).map phpLine)).getLast? =
      some c := by
    refine joinSep_getLast (by simp) (x := phpLine p) ?_ ?_
    · rw [List.getLast?_map, hp]
      rfl
    · rw [phpLine]
      rw [List.getLast?_append_of_ne_nil _ hvne]
      exact hc
  have hs1 : pyStripChars "Array\n(\n".data (phpSerialize (kv0 :: rest)) =
      joinSep ['\n'] ((kv0 :: rest).map phpLine) ++ "\n)".data := by
    rw [pyStripChars]
    rw [show phpSerialize (kv0 :: rest) = "Array\n(\n".data ++ ' ' ::
      ("   [".data ++ kv0.1 ++ "] => ".data ++ kv0.2 ++ T ++ "\n)".data)
      from by rw [phpSerialize, hJdef]; simp [phpLine]]
    rw [lstrip_envelope]
    rw [show (' ' :: ("   [".data ++ kv0.1 ++ "] => ".data ++ kv0.2 ++ T ++
      "\n)".data) : Str) =
      joinSep ['\n'] ((kv0 :: rest).map phpLine) ++ "\n)".data
      from by rw [hJdef]; simp [phpLine]]
    refine pyRStripChars_noop (c := ')') ?_ (by decide)
    rw [List.getLast?_append_of_ne_nil _ (by decide)]
    decide
  have hs2 : pyStripChars "\n)".data
      (joinSep ['\n'] ((kv0 :: rest).map phpLine) ++ "\n)".data) =
      joinSep ['\n'] ((kv0 :: rest).map phpLine) := by
    rw [pyStripChars]
    rw [show (joinSep ['\n'] ((kv0 :: rest).map phpLine) ++ "\n)".data) =
      ' ' :: ("   [".data ++ kv0.1 ++ "] => ".data ++ kv0.2 ++ T ++
        "\n)".data) from by rw [hJdef]; simp [phpLine]]
    rw [pyLStripChars_noop (c := ' ')
      (s := ' ' :: ("   [".data ++ kv0.1 ++ "] => ".data ++ kv0.2 ++ T ++
        "\n)".data)) rfl (by decide)]
    rw [show (' ' :: ("   [".data ++ kv0.1 ++ "] => ".data ++ kv0.2 ++ T ++
      "\n)".data) : Str) =
      joinSep ['\n'] ((kv0 :: rest).map phpLine) ++ "\n)".data
      from by rw [hJdef]; simp [phpLine]]
    refine pyRStripChars_append (c := c) ?_ hJlast ?_
    · intro x hx
      rcases (by simpa using hx : x = '\n' ∨ x = ')') with rfl | rfl <;> decide
    · rw [show (("\n)".data.contains c) : Bool) =
        ((c == '\n') || ((c == ')') || false)) from rfl]
      simp only [Bool.or_false, Bool.or_eq_false_iff, beq_eq_false_iff_ne]
      exact ⟨hcnl, hcpar⟩
  have hlast2 : ('[' :: (kv0.1 ++ "] => ".data ++ kv0.2 ++ T) : Str).getLast?
      = some c := by
    have h0 := hJlast
    rw [show joinSep ['\n'] ((kv0 :: rest).map phpLine) =
      "    ".data ++ '[' :: (kv0.1 ++ "] => ".data ++ kv0.2 ++ T)
      from by rw [hJdef]; simp [phpLine]] at h0
    rw [List.getLast?_append_of_ne_nil _ (by simp)] at h0
    exact h0
  rw [hs1, hs2]
  rw [pyStrip]
  rw [show joinSep ['\n'] ((kv0 :: rest).map phpLine) =
    "    ".data ++ '[' :: (kv0.1 ++ "] => ".data ++ kv0.2 ++ T)
    from by rw [hJdef]; simp [phpLine]]
  rw [dropWhile_indent]
  rw [dropTrailing_noop hlast2 hcsp]
  rw [hTall (phpLineBare kv0)]
  simp [phpLineBare]


/-- Evaluation of the decoder: strip, split into lines, fold the line
decoder over a dict accumulator. -/
theorem parse_php_array_eval (s : Str) :
    parse_php_array s =
      (splitOnChar '\n' (pyStrip (pyStripChars "\n)".data
        (pyStripChars "Array\n(\n".data s)))).foldlM (fun d pair => do
          let (key, value) ← unpack2 ((splitOnL "=>".data pair).map pyStrip)
          pure (dictSet d (pyStripChars "[] ".data key) value)) [] := rfl

/-- Folding the line decoder over indented well-behaved lines performs the
corresponding dict insertions. -/
theorem php_fold :
    ∀ (kvs : List (Str × Str)) (d : List (Str × Str)),
      (∀ kv ∈ kvs, goodKey kv.1 = true ∧ goodVal kv.2 = true) →
      ((kvs.map phpLine).foldlM (fun d pair => do
          let (key, value) ← unpack2 ((splitOnL "=>".data pair).map pyStrip)
          pure (dictSet d (pyStripChars "[] ".data key) value)) d :
        Except PyErr (List (Str × Str))) =
      .ok (kvs.foldl (fun d kv => dictSet d kv.1 kv.2) d) := by
  intro kvs
  induction kvs with
  | nil => intro d _; rfl
  | cons kv t ih =>
    intro d hgood
    rw [List.map_cons, List.foldlM_cons]
    rw [show phpLine kv =
      "    ".data ++ "[".data ++ kv.1 ++ "] => ".data ++ kv.2
      from by simp [phpLine]]
    rw [php_line_step "    ".data kv d (Or.inr rfl)
      (hgood kv (by simp)).1 (hgood kv (by simp)).2]
    rw [exceptBind_ok]
    rw [ih (dictSet d kv.1 kv.2) (fun q hq => hgood q (by simp [hq]))]
    rfl

/-- A line without the separator token aborts the fold with an error. -/
theorem php_fold_err {bad : Str} (hbad : containsSub "=>".data bad = false) :
    ∀ {lines : List Str}, bad ∈ lines →
    ∀ d, ∃ e, ((lines.foldlM (fun d pair => do
        let (key, value) ← unpack2 ((splitOnL "=>".data pair).map pyStrip)
        pure (dictSet d (pyStripChars "[] ".data key) value)) d :
      Except PyErr (List (Str × Str))) = .error e) := by
  intro lines
  induction lines with
  | nil => intro h; cases h
  | cons l0 rest ih =>
    intro hmem d
    rw [List.foldlM_cons]
    cases hstep : ((do
        let (key, value) ← unpack2 ((splitOnL "=>".data l0).map pyStrip)
        pure (dictSet d (pyStripChars "[] ".data key) value)) :
      Except PyErr (List (Str × Str))) with
    | error e => exact ⟨e, rfl⟩
    | ok d1 =>
      rcases List.mem_cons.mp hmem with rfl | hmem2
      · rw [splitOnL_single hbad] at hstep
        rw [show (unpack2 ([bad].map pyStrip) : Except PyErr (Str × Str)) =
          .error (.valueError "unpacking needs exactly two values")
          from rfl] at hstep
        cases hstep
      · obtain ⟨e, he⟩ := ih hmem2 d1
        exact ⟨e, by rw [exceptBind_ok, he]⟩


/-- C5: the associative-array decoder against its serialization convention
(bill.py lines 52-73).  First conjunct (left inverse, under the conditions
the convention requires): for any non-empty pair list with distinct keys,
keys non-empty and undecorated at the ends by bracket/space characters and
free of newlines and of the separator token, values non-empty,
strip-invariant and free of newlines and of the separator token, and the
last value not ending in `)` — decoding the serialized block returns
exactly those pairs.  Second conjunct (missing separator): whenever some
line of the stripped core lacks the separator token, the decoder raises. -/
theorem c5_php_left_inverse :
    (∀ kvs : List (Str × Str), kvs ≠ [] →
      (kvs.map Prod.fst).Nodup →
      (∀ kv ∈ kvs, goodKey kv.1 = true ∧ goodVal kv.2 = true) →
      (∀ k v, kvs.getLast? = some (k, v) → v.getLast? ≠ some ')') →
      parse_php_array (phpSerialize kvs) = .ok kvs) ∧
    (∀ s bad : Str,
      bad ∈ splitOnChar '\n' (pyStrip (pyStripChars "\n)".data
        (pyStripChars "Array\n(\n".data s))) →
      containsSub "=>".data bad = false →
      ∃ e, parse_php_array s = .error e) := by
  constructor
  · intro kvs hne hnd hgood hlast
    cases kvs with
    | nil => cases hne rfl
    | cons kv0 rest =>
      rw [parse_php_array_eval, php_strip_eval hgood hlast]
      rw [splitOnChar_joinSep (by simp) ?_]
      · rw [List.foldlM_cons]
        rw [show phpLineBare kv0 =
          [] ++ "[".data ++ kv0.1 ++ "] => ".data ++ kv0.2
          from by simp [phpLineBare]]
        rw [php_line_step [] kv0 [] (Or.inl rfl)
          (hgood kv0 (by simp)).1 (hgood kv0 (by simp)).2]
        rw [exceptBind_ok]
        rw [php_fold rest (dictSet [] kv0.1 kv0.2)
          (fun q hq => hgood q (by simp [hq]))]
        rw [show dictSet ([] : List (Str × Str)) kv0.1 kv0.2 = [kv0] from rfl]
        rw [List.map_cons, List.nodup_cons] at hnd
        rw [foldl_dictSet_fresh rest [kv0] ?_ hnd.2]
        · rfl
        · intro q hq hqmem
          rw [show List.map Prod.fst [kv0] = [kv0.1] from rfl,
            List.mem_singleton] at hqmem
          exact hnd.1 (hqmem ▸ List.mem_map_of_mem Prod.fst hq)
      · intro l hl
        rcases List.mem_cons.mp hl with rfl | hl2
        · exact phpLineBare_no_nl (hgood kv0 (by simp)).1
            (hgood kv0 (by simp)).2
        · obtain ⟨q, hq, rfl⟩ := List.mem_map.mp hl2
          exact phpLine_no_nl (hgood q (by simp [hq])).1
            (hgood q (by simp [hq])).2
  · intro s bad hmem hbad
    rw [parse_php_array_eval]
    exact php_fold_err hbad hmem []

/-- C5 counterexample: a value whose last character is `)` is corrupted by
the envelope strip — the decoder is not a left inverse on it, although the
block is well-formed by the documented convention (one `[k] => v` pair per
line, no separator or newline inside the value). -/
theorem c5_php_trailing_paren :
    parse_php_array (phpSerialize [("k".data, "v)".data)]) =
      .ok [("k".data, "v".data)] ∧
    ("v".data : Str) ≠ "v)".data := by
  constructor
  · decide
  · decide

theorem c5_php_left_inverse_witness :
    parse_php_array (phpSerialize
      [("key1".data, "value1".data), ("key2".data, "value2".data)]) =
      .ok [("key1".data, "value1".data), ("key2".data, "value2".data)] ∧
    (∃ e, parse_php_array "Array\n(\n    nosep\n)".data = .error e) :=
  ⟨c5_php_left_inverse.1
      [("key1".data, "value1".data), ("key2".data, "value2".data)]
      (by decide) (by decide) (by decide)
      (by
        intro k v h
        have h2 : some (("key2".data, "value2".data) : Str × Str) =
          some (k, v) := h
        injection h2 with h3
        rw [show v = "value2".data from (congrArg Prod.snd h3).symm]
        decide),
    c5_php_left_inverse.2 "Array\n(\n    nosep\n)".data "nosep".data
      (by decide) (by decide)⟩

end C2D
